import Mathlib

/-!
Shallow embedding of the photo-proof backend (FastAPI + SQLAlchemy + a legacy
JSON-file data manager) and proofs about its upload pipeline, batch action
reconciliation, comment creation and read projections.

Conventions of the embedding:
* machine state is explicit: the relational store is a record of lists of rows,
  the upload directory is an association list from path triples to byte lists;
* identifiers and datetimes are opaque: ids are `String`, datetimes are `Nat`
  ticks (only equality/order is ever used by the code);
* fallible handlers return a result carrying both the (possibly changed) world
  and an error kind mirroring the HTTP error taxonomy;
* Python truthiness of optional strings (`if s:`) is modelled explicitly:
  `none` and `some ""` are both falsy.
-/

namespace PhotoProof

/-! ### Path handling (`pathlib` semantics used by `uploads.py`) -/

/-- Split a character list on `'/'`, keeping empty segments
(the raw split that posix path parsing starts from). -/
def splitSlashes : List Char → List (List Char)
  | [] => [[]]
  | c :: rest =>
    let r := splitSlashes rest
    if c = '/' then [] :: r
    else match r with
      | [] => [[c]]
      | seg :: segs => (c :: seg) :: segs

/-- `PurePosixPath(value).name`: the last path component after dropping empty
and `"."` components, or `""` when none remains.  This is the
`_sanitize_segment` helper of `uploads.py`. -/
def sanitizeSegChars (cs : List Char) : List Char :=
  (((splitSlashes cs).filter (fun p => p ≠ [] ∧ p ≠ ['.'])).getLast?).getD []

def sanitizeSegment (s : String) : String :=
  ⟨sanitizeSegChars s.data⟩

/-- `PurePosixPath(name).suffix`: the substring from the final dot of the
name, provided that dot is neither the first nor the last character. -/
def pathSuffix (s : String) : String :=
  let cs := s.data
  match (cs.reverse.findIdx? (· = '.')) with
  | none => ""
  | some k =>
    let i := cs.length - 1 - k
    if 0 < i ∧ i < cs.length - 1 then ⟨cs.drop i⟩ else ""

/-- ASCII `str.lower()` on a character (extensions and ids are ASCII). -/
def lowerChar (c : Char) : Char :=
  if 'A' ≤ c ∧ c ≤ 'Z' then Char.ofNat (c.toNat + 32) else c

def lowerStr (s : String) : String := ⟨s.data.map lowerChar⟩

/-- `str.strip()` whitespace (ASCII whitespace characters). -/
def isSpaceChar (c : Char) : Bool :=
  c = ' ' ∨ c = '\t' ∨ c = '\n' ∨ c = '\r' ∨ c = '\x0b' ∨ c = '\x0c'

/-- `str.strip()`: drop leading and trailing whitespace. -/
def stripStr (s : String) : String :=
  ⟨(s.data.dropWhile isSpaceChar).reverse.dropWhile isSpaceChar |>.reverse⟩

/-- `_is_image_file`: extension-based image detection. -/
def isImageFile (filename : String) : Bool :=
  lowerStr (pathSuffix filename) ∈
    [".jpg", ".jpeg", ".png", ".gif", ".bmp", ".webp", ".tiff", ".tif"]

/-! ### Binary validation (`_validate_image_file` of `uploads.py`)

Files are byte lists (each byte a `Nat < 256`).  The text-sniffing step of the
source opens the file in text mode and reads up to 200 characters; we model it
with a strict UTF-8 decoder: a malformed byte sequence is the
`UnicodeDecodeError` branch of the source. -/

/-- Strict UTF-8 decoding of a byte list into code points.  Returns `none` on
any malformed sequence (overlong forms, surrogates and out-of-range values are
rejected, as CPython's strict decoder does). -/
def utf8Decode : List Nat → Option (List Nat)
  | [] => some []
  | b :: rest =>
    if b < 0x80 then (utf8Decode rest).map (b :: ·)
    else if 0xC2 ≤ b ∧ b ≤ 0xDF then
      match rest with
      | b1 :: rest' =>
        if 0x80 ≤ b1 ∧ b1 ≤ 0xBF then
          (utf8Decode rest').map (((b - 0xC0) * 0x40 + (b1 - 0x80)) :: ·)
        else none
      | _ => none
    else if 0xE0 ≤ b ∧ b ≤ 0xEF then
      match rest with
      | b1 :: b2 :: rest' =>
        let lo1 := if b = 0xE0 then 0xA0 else 0x80
        let hi1 := if b = 0xED then 0x9F else 0xBF
        if (lo1 ≤ b1 ∧ b1 ≤ hi1) ∧ (0x80 ≤ b2 ∧ b2 ≤ 0xBF) then
          (utf8Decode rest').map
            (((b - 0xE0) * 0x1000 + (b1 - 0x80) * 0x40 + (b2 - 0x80)) :: ·)
        else none
      | _ => none
    else if 0xF0 ≤ b ∧ b ≤ 0xF4 then
      match rest with
      | b1 :: b2 :: b3 :: rest' =>
        let lo1 := if b = 0xF0 then 0x90 else 0x80
        let hi1 := if b = 0xF4 then 0x8F else 0xBF
        if (lo1 ≤ b1 ∧ b1 ≤ hi1) ∧ (0x80 ≤ b2 ∧ b2 ≤ 0xBF) ∧ (0x80 ≤ b3 ∧ b3 ≤ 0xBF) then
          (utf8Decode rest').map
            (((b - 0xF0) * 0x40000 + (b1 - 0x80) * 0x1000 + (b2 - 0x80) * 0x40 + (b3 - 0x80)) :: ·)
        else none
      | _ => none
    else none

/-- ASCII lowering of a code point (`str.lower()` restricted to ASCII, which
is all the marker phrases need). -/
def lowerCp (c : Nat) : Nat :=
  if 0x41 ≤ c ∧ c ≤ 0x5A then c + 0x20 else c

/-- Whether `pat` occurs contiguously inside `l`. -/
def containsSeq (l pat : List Nat) : Bool :=
  match l with
  | [] => decide (pat = [])
  | _ :: rest => decide (pat = l.take pat.length) || containsSeq rest pat

def strCps (s : String) : List Nat := s.data.map Char.toNat

/-- The marker phrases of `_validate_image_file`. -/
def testPhrases : List (List Nat) :=
  [strCps "test", strCps "hello", strCps "image does not exist",
   strCps "test data", strCps "hello world"]

/-- `str.isprintable` on a code point, exact on ASCII and Latin-1 controls
(all bytes a UTF-8 text under 1000 bytes can reasonably produce here);
code points above U+00A0 are treated as printable. -/
def printableCp (c : Nat) : Bool :=
  decide ((0x20 ≤ c ∧ c < 0x7F) ∨ 0xA0 < c)

/-- The text-sniffing tail of `_validate_image_file`: try to read the file as
UTF-8 text; if that fails (the `UnicodeDecodeError` branch) the file passes;
otherwise the first 200 characters must not contain a marker phrase, and a
fully printable file under 1000 bytes is rejected. -/
def textSniffOk (bytes : List Nat) : Bool :=
  match utf8Decode bytes with
  | none => true
  | some cps =>
    let content := cps.take 200
    if testPhrases.any (fun ph => containsSeq (content.map lowerCp) ph) then false
    else if bytes.length < 1000 ∧ content.all printableCp then false
    else true

/-- `_validate_image_file`: size check, magic-byte check for the claimed
extension, then the text sniff. -/
def validateImageFile (filename : String) (bytes : List Nat) : Bool :=
  if bytes.length < 100 then false
  else
    let header := bytes.take 20
    let ext := lowerStr (pathSuffix filename)
    if ext = ".jpg" ∨ ext = ".jpeg" then
      if header.take 3 ≠ [0xFF, 0xD8, 0xFF] then false else textSniffOk bytes
    else if ext = ".png" then
      if header.take 8 ≠ [0x89, 0x50, 0x4E, 0x47, 0x0D, 0x0A, 0x1A, 0x0A] then false
      else textSniffOk bytes
    else if ext = ".gif" then
      if ¬ (header.take 6 = strCps "GIF87a" ∨ header.take 6 = strCps "GIF89a") then false
      else textSniffOk bytes
    else if ext = ".bmp" then
      if header.take 2 ≠ strCps "BM" then false else textSniffOk bytes
    else if ext = ".webp" then
      if ¬ (12 ≤ header.length ∧ header.take 4 = strCps "RIFF" ∧
            (header.drop 8).take 4 = strCps "WEBP") then false
      else textSniffOk bytes
    else textSniffOk bytes

/-- `mimetypes.guess_type` restricted to the extensions the pipeline accepts
(the standard table entries for them). -/
def guessMime (filename : String) : Option String :=
  let ext := lowerStr (pathSuffix filename)
  if ext = ".jpg" ∨ ext = ".jpeg" then some "image/jpeg"
  else if ext = ".png" then some "image/png"
  else if ext = ".gif" then some "image/gif"
  else if ext = ".bmp" then some "image/bmp"
  else if ext = ".webp" then some "image/webp"
  else if ext = ".tiff" ∨ ext = ".tif" then some "image/tiff"
  else none

deriving instance DecidableEq for Except

/-- Python truthiness of an `Optional[str]`: `None` and `""` are falsy. -/
def strTruthy : Option String → Option String
  | none => none
  | some s => if s = "" then none else some s

/-- `a or b` on an optional string and a fallback (`payload.content_type or x`). -/
def pyOrStr (o : Option String) (d : String) : String :=
  ((strTruthy o).getD d)

/-! ### The relational store (`app/db/models.py`)

Rows carry the columns the embedded handlers read or write; ids are the
`String` primary keys, datetimes are `Nat` ticks.  The `image_tags`
association table is folded into `SImage.tagIds` (the ORM collection
`Image.tags`). -/

structure SProject where
  id : String
  studio_id : String
  client_id : String
  name : String
  access_url : String
  status : String
  total_images : Nat
  selected_images : Nat
  total_comments : Nat
  storage_used_bytes : Nat
  created_at : Nat
  updated_at : Nat
  deriving DecidableEq, Repr

structure SCategory where
  id : String
  project_id : String
  name : String
  display_name : String
  order_index : Int
  is_default : Bool
  image_count : Nat
  created_at : Nat
  updated_at : Nat
  deriving DecidableEq, Repr

structure SImage where
  id : String
  project_id : String
  category_id : String
  uploaded_by : String
  original_filename : String
  s3_key_original : String
  s3_key_thumbnail : Option String
  s3_key_preview : Option String
  s3_key_print : Option String
  file_size_bytes : Nat
  mime_type : String
  width : Option Nat
  height : Option Nat
  rating : Int
  is_favorite : Bool
  is_selected : Bool
  comment_count : Nat
  status : String
  uploaded_at : Nat
  updated_at : Nat
  tagIds : List String
  deriving DecidableEq, Repr

structure SVersion where
  id : String
  image_id : String
  version_name : String
  s3_key : String
  file_size_bytes : Option Nat
  width : Option Nat
  height : Option Nat
  created_by : Option String
  created_at : Nat
  deriving DecidableEq, Repr

structure SComment where
  id : String
  image_id : String
  user_id : String
  parent_id : Option String
  content : String
  resolved : Bool
  created_at : Nat
  updated_at : Nat
  deriving DecidableEq, Repr

structure STag where
  id : String
  studio_id : Option String
  name : String
  created_at : Nat
  deriving DecidableEq, Repr

structure DB where
  projects : List SProject
  categories : List SCategory
  images : List SImage
  versions : List SVersion
  comments : List SComment
  tags : List STag
  deriving DecidableEq, Repr

/-- The authenticated user as the handlers see it (`UserRead`).  Roles are the
strings of `user_role_enum`; the client role is `"client"`. -/
structure SUser where
  id : String
  studio_id : Option String
  name : String
  role : String
  deriving DecidableEq, Repr

/-! ### Upload storage

One directory tree per (project segment, category segment, file segment);
`write` overwrites silently, as a second `PUT` to the same target URL does. -/

structure FileKey where
  proj : String
  cat : String
  file : String
  deriving DecidableEq, Repr

structure Store where
  files : List (FileKey × List Nat)
  deriving DecidableEq, Repr

def Store.read (s : Store) (k : FileKey) : Option (List Nat) :=
  (s.files.find? (fun e => e.1 = k)).map (·.2)

def Store.write (s : Store) (k : FileKey) (content : List Nat) : Store :=
  ⟨(k, content) :: s.files.filter (fun e => ¬ e.1 = k)⟩

def Store.erase (s : Store) (k : FileKey) : Store :=
  ⟨s.files.filter (fun e => ¬ e.1 = k)⟩

structure World where
  db : DB
  store : Store
  deriving DecidableEq, Repr

/-- The HTTP error taxonomy of the handlers. -/
inductive ErrKind where
  | forbidden
  | notFound
  | invalidCategory
  | noCategory
  | corruptImage
  | emptyUpload
  | writeError
  deriving DecidableEq, Repr

/-- Live relation between a project and its categories
(`Project.categories` relationship). -/
def projectCategories (db : DB) (pid : String) : List SCategory :=
  db.categories.filter (fun c => c.project_id = pid)

/-- `_resolve_category_id`: an explicit id must belong to the project, else
the default category, else the first category, else none. -/
def resolveCategoryId (cats : List SCategory) (requested : Option String) :
    Except ErrKind (Option String) :=
  match strTruthy requested with
  | some r =>
    if cats.any (fun c => c.id = r) then .ok (some r) else .error .invalidCategory
  | none =>
    match cats.find? (fun c => c.is_default) with
    | some c => .ok (some c.id)
    | none => .ok (cats.head?.map (·.id))

/-- The `category_id or (project.categories[0].id if ... else None)` fallback
of `complete_upload`, applied to the result of `_resolve_category_id`. -/
def effectiveCategory (cats : List SCategory) (requested : Option String) :
    Except ErrKind (Option String) :=
  match resolveCategoryId cats requested with
  | .error e => .error e
  | .ok catOpt =>
    match strTruthy catOpt with
    | some c => .ok (some c)
    | none => .ok (cats.head?.map (·.id))

/-- The destination path triple `UPLOADS_ROOT / project / category / file`
used by both the stream endpoint and `complete_upload`. -/
def destKey (projectSeg categorySeg fileName : String) : FileKey :=
  ⟨sanitizeSegment projectSeg, sanitizeSegment categorySeg, sanitizeSegment fileName⟩

/-- `PUT /api/uploads/complete` request body. -/
structure CompletePayload where
  project_id : String
  category_id : Option String
  file_name : String
  original_file_name : String
  file_size : Nat
  content_type : Option String
  deriving DecidableEq, Repr

inductive CompleteResult where
  | ok (w : World) (img : SImage) (already : Bool)
  | err (w : World) (e : ErrKind)
  deriving DecidableEq, Repr

/-- `project.total_images += 1; project.storage_used_bytes += size` on the
project row `complete_upload` fetched. -/
def bumpProject (pid : String) (size now : Nat) (p : SProject) : SProject :=
  if p.id = pid then
    { p with total_images := p.total_images + 1
             storage_used_bytes := p.storage_used_bytes + size
             updated_at := now }
  else p

/-- `category.image_count += 1` on the resolved category of that project. -/
def bumpCategory (pid resolvedCat : String) (now : Nat) (c : SCategory) : SCategory :=
  if c.project_id = pid ∧ c.id = resolvedCat then
    { c with image_count := c.image_count + 1, updated_at := now }
  else c

/-- The transactional insert at the end of `complete_upload`: new Image row,
its "original" Version row, blind `+1`/`+size` increments on the Project and
the matching Category of that project. -/
def insertImageWorld (w : World) (pid resolvedCat : String) (img : SImage)
    (ver : SVersion) (size : Nat) (now : Nat) : World :=
  { w with db := { w.db with
      images := w.db.images ++ [img]
      versions := w.db.versions ++ [ver]
      projects := w.db.projects.map (bumpProject pid size now)
      categories := w.db.categories.map (bumpCategory pid resolvedCat now) } }

/-- The new Image row built by `complete_upload`. -/
def newImageRow (newImageId pid resolvedCat : String) (user : SUser)
    (pl : CompletePayload) (asset : String) (size : Nat) (mime : String)
    (wh : Option Nat × Option Nat) (now : Nat) : SImage :=
  { id := newImageId
    project_id := pid
    category_id := resolvedCat
    uploaded_by := user.id
    original_filename := pl.original_file_name
    s3_key_original := asset
    s3_key_thumbnail := some asset
    s3_key_preview := none
    s3_key_print := none
    file_size_bytes := size
    mime_type := mime
    width := wh.1
    height := wh.2
    rating := 0
    is_favorite := false
    is_selected := false
    comment_count := 0
    status := "ready"
    uploaded_at := now
    updated_at := now
    tagIds := [] }

def newVersionRow (newVersionId imageId : String) (user : SUser) (asset : String)
    (size : Nat) (wh : Option Nat × Option Nat) (now : Nat) : SVersion :=
  { id := newVersionId
    image_id := imageId
    version_name := "original"
    s3_key := asset
    file_size_bytes := some size
    width := wh.1
    height := wh.2
    created_by := some user.id
    created_at := now }

/-- The `complete_upload` duplicate query: an Image of the same project with
the same original file name and the same (resolved) category. -/
def dupPred (projId : String) (pl : CompletePayload) (resolved : String)
    (i : SImage) : Bool :=
  i.project_id = projId ∧ i.original_filename = pl.original_file_name ∧
    i.category_id = resolved

/-- The static serving URL recorded on the Image row. -/
def assetUrl (key : FileKey) : String :=
  "/uploads/" ++ key.proj ++ "/" ++ key.cat ++ "/" ++ key.file

/-- `payload.content_type or mimetypes.guess_type(...) or octet-stream`. -/
def mimeFor (pl : CompletePayload) (fileSeg : String) : String :=
  pyOrStr pl.content_type ((guessMime fileSeg).getD "application/octet-stream")

/-- `complete_upload` (`PUT /api/uploads/complete`).  `wh` is the result of
the PIL width/height extraction, an external collaborator whose failure is
non-fatal (`(none, none)`); `newImageId`/`newVersionId` are the `uuid4()`
draws. -/
def completeUpload (w : World) (user : SUser) (pl : CompletePayload)
    (newImageId newVersionId : String) (wh : Option Nat × Option Nat)
    (now : Nat) : CompleteResult :=
  if user.role = "client" then .err w .forbidden
  else
    match w.db.projects.find? (fun p => p.id = pl.project_id) with
    | none => .err w .notFound
    | some project =>
      match effectiveCategory (projectCategories w.db project.id) pl.category_id with
      | .error e => .err w e
      | .ok none => .err w .noCategory
      | .ok (some resolved) =>
        match w.store.read (destKey project.id resolved pl.file_name) with
        | none => .err w .notFound
        | some bytes =>
          if isImageFile (destKey project.id resolved pl.file_name).file ∧
              ¬ validateImageFile (destKey project.id resolved pl.file_name).file bytes then
            .err { w with
                   store := w.store.erase (destKey project.id resolved pl.file_name) }
              .corruptImage
          else
            match w.db.images.find? (dupPred project.id pl resolved) with
            | some dup => .ok w dup true
            | none =>
              .ok (insertImageWorld w project.id resolved
                    (newImageRow newImageId project.id resolved user pl
                      (assetUrl (destKey project.id resolved pl.file_name))
                      bytes.length
                      (mimeFor pl (destKey project.id resolved pl.file_name).file)
                      wh now)
                    (newVersionRow newVersionId newImageId user
                      (assetUrl (destKey project.id resolved pl.file_name))
                      bytes.length wh now)
                    bytes.length now)
                (newImageRow newImageId project.id resolved user pl
                  (assetUrl (destKey project.id resolved pl.file_name)) bytes.length
                  (mimeFor pl (destKey project.id resolved pl.file_name).file) wh now)
                false

/-- Outcome of the streaming endpoint. -/
inductive StreamResult where
  | ok (w : World)
  | err (w : World) (e : ErrKind)
  deriving DecidableEq, Repr

/-- `PUT /api/uploads/stream/{project_id}/{category_id}/{file_name}`.

The incoming body is a list of chunks; empty chunks are skipped, so the
written content is just their concatenation.  NOTE the source's `try` block
encloses the two validation `raise HTTPException(400, ...)` statements
(empty upload, invalid image), and its blanket `except Exception` catches
them, deletes the file and re-raises `HTTPException(500, "Failed to write
file: ...")`; the observable error kind in both cases is therefore
`writeError`, never `emptyUpload`. -/
def uploadFileStream (w : World) (project_id category_id file_name : String)
    (chunks : List (List Nat)) : StreamResult :=
  match w.db.projects.find? (fun p => p.id = project_id) with
  | none => .err w .notFound
  | some _ =>
    match w.db.categories.find? (fun c => c.id = category_id ∧ c.project_id = project_id) with
    | none => .err w .invalidCategory
    | some _ =>
      let key := destKey project_id category_id file_name
      let content := chunks.flatten
      let w1 := { w with store := w.store.write key content }
      if content.length = 0 then
        -- HTTPException(400, "Uploaded file is empty") is raised, caught by
        -- the blanket except, the file unlinked and a 500 raised instead.
        .err { w1 with store := w1.store.erase key } .writeError
      else if isImageFile key.file ∧ ¬ validateImageFile key.file content then
        -- HTTPException(400, "Uploaded file is not a valid image"), same
        -- wrapping into the 500 write failure.
        .err { w1 with store := w1.store.erase key } .writeError
      else .ok w1

/-! ### Image update / recategorize (`project_images.py`) and comments
(`project_comments.py`) -/

/-- `PATCH /api/projects/{p}/images/{image_id}` request body. -/
structure UpdateImageRequest where
  category_id : Option String
  is_selected : Option Bool
  is_favorite : Option Bool
  rating : Option Int
  tags : Option (List String)
  deriving DecidableEq, Repr

/-- `tag.strip().lower()` normalisation; trimming is ASCII whitespace. -/
def normalizeTag (t : String) : String := lowerStr (stripStr t)

/-- The tag loop of `update_project_image`: for each normalised name, reuse
the tag whose lowered name matches, else create one from the fresh-id
supply.  The source iterates a Python set; we iterate the deduplicated
normalised list (the iteration order only affects which fresh id names
which new tag). -/
def processTags (allTags : List STag) (studioId : String) (names : List String)
    (fresh : List String) (now : Nat) : List STag × List String :=
  match names with
  | [] => (allTags, [])
  | n :: rest =>
    match allTags.find? (fun t => lowerStr t.name = n) with
    | some t =>
      let (allTags', ids) := processTags allTags studioId rest fresh now
      (allTags', t.id :: ids)
    | none =>
      let tag : STag := { id := fresh.headD "", studio_id := some studioId
                          name := n, created_at := now }
      let (allTags', ids) := processTags (allTags ++ [tag]) studioId rest (fresh.tail) now
      (allTags', tag.id :: ids)

inductive UpdateResult where
  | ok (w : World) (img : SImage)
  | err (e : ErrKind)
  deriving DecidableEq, Repr

/-- The image list after the PATCH mutates one row in place. -/
def updatedImages (images : List SImage) (image_id : String) (img2 : SImage) :
    List SImage :=
  images.map (fun i => if i.id = image_id then img2 else i)

/-- Live counts used by the recompute queries of `update_project_image`. -/
def countImagesOfProject (images : List SImage) (pid : String) : Nat :=
  images.countP (fun i => i.project_id = pid)

def countSelectedOfProject (images : List SImage) (pid : String) : Nat :=
  images.countP (fun i => i.project_id = pid ∧ i.is_selected)

def countImagesOfCategory (images : List SImage) (cid : String) : Nat :=
  images.countP (fun i => i.category_id = cid)

/-- `category.image_count = <live count>` for one category id. -/
def recomputeCategoryCount (images1 : List SImage) (target : String)
    (cats : List SCategory) : List SCategory :=
  cats.map (fun c =>
    if c.id = target then
      { c with image_count := countImagesOfCategory images1 c.id }
    else c)

/-- The world after the PATCH commits: the mutated image row, the project's
`total_images`/`selected_images` recomputed from live counts, and the
`image_count` of the previous (when the category changed) and current
categories recomputed from live counts. -/
def updateWorld (w : World) (image : SImage) (image_id : String) (img2 : SImage)
    (prevCat newCat : String) (tags1 : List STag) (now : Nat) : World :=
  let images1 := updatedImages w.db.images image_id img2
  let projects1 := w.db.projects.map (fun p =>
    if p.id = image.project_id then
      { p with total_images := countImagesOfProject images1 p.id
               selected_images := countSelectedOfProject images1 p.id
               updated_at := now }
    else p)
  let categories1 :=
    if prevCat ≠ "" ∧ prevCat ≠ newCat then
      recomputeCategoryCount images1 prevCat w.db.categories
    else w.db.categories
  let categories2 :=
    if newCat ≠ "" then recomputeCategoryCount images1 newCat categories1
    else categories1
  { w with db := { w.db with
      images := images1
      projects := projects1
      categories := categories2
      tags := tags1 } }

/-- `update_project_image` (`PATCH` on a project image).  The image is looked
up globally by id (`deps.get_project_image`); its project must exist (FK).
After mutating the image the handler recomputes `total_images` and
`selected_images` from live counts, and recomputes `image_count` of the
previous category (when the category changed) and of the current category. -/
def updateProjectImage (w : World) (image_id : String) (req : UpdateImageRequest)
    (user : SUser) (freshTagIds : List String) (now : Nat) : UpdateResult :=
  match w.db.images.find? (fun i => i.id = image_id) with
  | none => .err .notFound
  | some image =>
    match w.db.projects.find? (fun p => p.id = image.project_id) with
    | none => .err .notFound
    | some project =>
      if user.role = "client" ∨ user.studio_id ≠ some project.studio_id then
        .err .forbidden
      else
        match
          ((match strTruthy req.category_id with
            | some c =>
              match w.db.categories.find? (fun cat =>
                  cat.project_id = image.project_id ∧ cat.id = c) with
              | none => none
              | some cat => some (image.category_id, cat.id)
            | none => some (image.category_id, image.category_id)) :
            Option (String × String)) with
        | none => .err .invalidCategory
        | some (prevCat, newCat) =>
          let img1 := { image with
            category_id := newCat
            is_selected := req.is_selected.getD image.is_selected
            is_favorite := req.is_favorite.getD image.is_favorite
            rating := req.rating.getD image.rating }
          let (tags', tagIds') :=
            match req.tags with
            | none => (w.db.tags, img1.tagIds)
            | some ts =>
              processTags w.db.tags project.studio_id
                (((ts.map normalizeTag).filter (fun t => t ≠ "")).dedup) freshTagIds now
          .ok (updateWorld w image image_id
                { img1 with tagIds := tagIds', updated_at := now }
                prevCat newCat tags' now)
              { img1 with tagIds := tagIds', updated_at := now }

/-- `POST .../comments` request body. -/
structure CreateCommentRequest where
  content : String
  parent_id : Option String
  deriving DecidableEq, Repr

inductive CommentResult where
  | ok (w : World) (c : SComment)
  | err (e : ErrKind)
  deriving DecidableEq, Repr

/-- `create_image_comment`: insert the Comment row, `comment_count += 1` on
the image, `total_comments += 1` on its project. -/
def createImageComment (w : World) (image_id : String) (req : CreateCommentRequest)
    (user : SUser) (newCommentId : String) (now : Nat) : CommentResult :=
  match w.db.images.find? (fun i => i.id = image_id) with
  | none => .err .notFound
  | some image =>
    let c : SComment := { id := newCommentId, image_id := image.id
                          user_id := user.id, parent_id := req.parent_id
                          content := req.content, resolved := false
                          created_at := now, updated_at := now }
    .ok { w with db := { w.db with
            comments := w.db.comments ++ [c]
            images := w.db.images.map (fun i =>
              if i.id = image.id then
                { i with comment_count := i.comment_count + 1, updated_at := now }
              else i)
            projects := w.db.projects.map (fun p =>
              if p.id = image.project_id then
                { p with total_comments := p.total_comments + 1, updated_at := now }
              else p) } } c

/-! ### The project-detail projection (`projects.py::_project_detail`) -/

/-- Live relation between a project and its images. -/
def projectImages (db : DB) (pid : String) : List SImage :=
  db.images.filter (fun i => i.project_id = pid)

/-- Sort key order for categories: `(cat.order_index, cat.created_at)`. -/
def catLe (a b : SCategory) : Bool :=
  a.order_index < b.order_index ∨ (a.order_index = b.order_index ∧ a.created_at ≤ b.created_at)

/-- Sort key order for images: `img.uploaded_at or img.created_at`; the
`uploaded_at` column is non-nullable, so the key is `uploaded_at`. -/
def imgLe (a b : SImage) : Bool :=
  a.uploaded_at ≤ b.uploaded_at

structure ProjectDetailView where
  categories : List SCategory
  images : List SImage
  deriving DecidableEq, Repr

/-- `_project_detail`: categories sorted by `(order_index, created_at)`,
images sorted by `sorted(project.images, key=lambda img: img.uploaded_at or
img.created_at)` — an ascending stable sort (Python `sorted`, no
`reverse=True`). -/
def projectDetail (db : DB) (pid : String) : ProjectDetailView :=
  { categories := (projectCategories db pid).mergeSort catLe
    images := (projectImages db pid).mergeSort imgLe }

/-! ### Counter-consistency invariants (§3 of the spec) -/

def countCommentsOfImage (comments : List SComment) (iid : String) : Nat :=
  comments.countP (fun c => c.image_id = iid)

/-- A comment belongs to a project through its image. -/
def countCommentsOfProject (db : DB) (pid : String) : Nat :=
  db.comments.countP (fun c =>
    (db.images.find? (fun i => i.id = c.image_id)).any (fun i => i.project_id = pid))

/-- The denormalized counters agree with live counts over their source rows. -/
def countersConsistent (db : DB) : Prop :=
  (∀ p ∈ db.projects, p.total_images = countImagesOfProject db.images p.id) ∧
  (∀ p ∈ db.projects, p.selected_images = countSelectedOfProject db.images p.id) ∧
  (∀ c ∈ db.categories, c.image_count = countImagesOfCategory db.images c.id) ∧
  (∀ i ∈ db.images, i.comment_count = countCommentsOfImage db.comments i.id) ∧
  (∀ p ∈ db.projects, p.total_comments = countCommentsOfProject db p.id)

/-- Structural well-formedness guaranteed by the schema: unique primary keys
(uuid strings, hence non-empty) and foreign-key integrity for comments. -/
def wfDB (db : DB) : Prop :=
  (db.projects.map (·.id)).Nodup ∧
  (db.categories.map (·.id)).Nodup ∧
  (db.images.map (·.id)).Nodup ∧
  (∀ c ∈ db.categories, c.id ≠ "") ∧
  (∀ c ∈ db.comments, ∃ i ∈ db.images, i.id = c.image_id)

instance : DecidablePred countersConsistent := fun db => by
  unfold countersConsistent; infer_instance

instance : DecidablePred wfDB := fun db => by
  unfold wfDB; infer_instance

/-! ### The legacy JSON-file store (`app/services/data_manager.py`, schemas of
the top-level `models.py`)

The batch-action endpoint operates on this store, not on the relational
database.  Note the legacy `Project` record: it has *no* `total_comments`
field — its only comment counters are the per-image `comment_count`s. -/

structure LImageVersion where
  id : String
  version : String
  url : String
  thumbnail : String
  file_name : String
  uploaded_at : Nat
  is_latest : Bool
  file_size : Nat
  deriving DecidableEq, Repr

structure LImage where
  id : String
  original_file_name : String
  category_id : String
  versions : List LImageVersion
  tags : List String
  is_selected : Bool
  is_favorite : Bool
  comment_count : Nat
  created_at : Nat
  updated_at : Nat
  deriving DecidableEq, Repr

structure LCategory where
  id : String
  name : String
  display_name : String
  order : Nat
  is_default : Bool
  deriving DecidableEq, Repr

structure LProject where
  id : String
  name : String
  client_name : String
  client_email : String
  studio_id : String
  categories : List LCategory
  images : List LImage
  status : String
  created_at : Nat
  updated_at : Nat
  access_url : String
  deriving DecidableEq, Repr

structure LComment where
  id : String
  image_id : String
  project_id : String
  user_id : String
  user_name : String
  user_role : String
  content : String
  parent_id : Option String
  created_at : Nat
  updated_at : Nat
  deriving DecidableEq, Repr

structure LUser where
  id : String
  name : String
  email : String
  role : String
  studio_id : Option String
  deriving DecidableEq, Repr

/-- The files the DataManager keeps (`projects.json`, `comments.json`). -/
structure DMState where
  projects : List LProject
  comments : List LComment
  deriving DecidableEq, Repr

/-- `DataManager.update_project`: replace the first project with a matching
id (nothing is appended when no row matches). -/
def replaceProject : List LProject → LProject → List LProject
  | [], _ => []
  | p :: rest, q => if p.id = q.id then q :: rest else p :: replaceProject rest q

/-- Fields touched by `update_project_image`'s `updates` dict in the batch
handlers (`is_selected`, `is_favorite`, `tags`; unknown keys are skipped by
the `hasattr` guard). -/
structure LImageUpdates where
  is_selected : Option Bool
  is_favorite : Option Bool
  tags : Option (List String)
  deriving DecidableEq, Repr

def applyImageUpdates (img : LImage) (u : LImageUpdates) (now : Nat) : LImage :=
  { img with
    is_selected := u.is_selected.getD img.is_selected
    is_favorite := u.is_favorite.getD img.is_favorite
    tags := u.tags.getD img.tags
    updated_at := now }

/-- Update the first image with the given id, returning the new list and the
updated image; `none` when no image matches. -/
def updateFirstImage (f : LImage → LImage) (iid : String) :
    List LImage → Option (List LImage × LImage)
  | [] => none
  | img :: rest =>
    if img.id = iid then some ((f img) :: rest, f img)
    else (updateFirstImage f iid rest).map (fun (l, r) => (img :: l, r))

/-- `DataManager.get_project_by_id`. -/
def dmGetProject (s : DMState) (pid : String) : Option LProject :=
  s.projects.find? (fun p => p.id = pid)

/-- `DataManager.update_project_image`: find the project, mutate the first
matching image, persist the project; `none` (and an unchanged store) when
the project or image is absent. -/
def dmUpdateProjectImage (s : DMState) (pid iid : String) (u : LImageUpdates)
    (now : Nat) : Option LImage × DMState :=
  match dmGetProject s pid with
  | none => (none, s)
  | some project =>
    match updateFirstImage (fun img => applyImageUpdates img u now) iid project.images with
    | none => (none, s)
    | some (imgs, img) =>
      let project1 := { project with images := imgs }
      (some img, { s with projects := replaceProject s.projects project1 })

/-- Increment `comment_count` of the first image with the given id. -/
def bumpFirstCommentCount (iid : String) : List LImage → Option (List LImage)
  | [] => none
  | img :: rest =>
    if img.id = iid then some ({ img with comment_count := img.comment_count + 1 } :: rest)
    else (bumpFirstCommentCount iid rest).map (img :: ·)

/-- `DataManager.create_comment`: always append the comment row; then, when
the comment's project exists and contains the image, bump that image's
`comment_count` and persist the project.  Nothing else changes — in
particular no project-level comment counter exists to be incremented. -/
def dmCreateComment (s : DMState) (c : LComment) : DMState :=
  let s1 := { s with comments := s.comments ++ [c] }
  match dmGetProject s1 c.project_id with
  | none => s1
  | some project =>
    match bumpFirstCommentCount c.image_id project.images with
    | none => s1
    | some imgs =>
      { s1 with projects := replaceProject s1.projects { project with images := imgs } }

/-! ### Batch reconciliation (`app/api/v1/batch_actions.py`) -/

inductive BatchActionType where
  | select
  | favorite
  | comment
  | approve
  | download
  deriving DecidableEq, Repr

/-- The payload keys the dispatchers read (`payload.get(...)`). -/
structure BPayload where
  selected : Option Bool
  favorite : Option Bool
  commentText : Option String
  parentId : Option String
  approved : Option Bool
  deriving DecidableEq, Repr

structure BatchAction where
  client_action_id : String
  action_type : BatchActionType
  photo_id : Option String
  project_id : Option String
  payload : BPayload
  timestamp : Int
  deriving DecidableEq, Repr

def BatchActionType.valueStr : BatchActionType → String
  | .select => "select"
  | .favorite => "favorite"
  | .comment => "comment"
  | .approve => "approve"
  | .download => "download"

/-- The duplicate-detection failure reason of `process_batch_actions`
(note the capital D in the source). -/
def dupReason : String := "Duplicate client_action_id in batch"

/-- `f"Failed to process {action.action_type} action"` (the `str, Enum`
mixin formats as its value under CPython ≥ 3.11). -/
def failReason (t : BatchActionType) : String :=
  "Failed to process " ++ t.valueStr ++ " action"

/-- `if not action.photo_id or not action.project_id: return False` —
truthiness of the two optional ids. -/
def actionIds (a : BatchAction) : Option (String × String) :=
  match strTruthy a.photo_id, strTruthy a.project_id with
  | some ph, some pr => some (ph, pr)
  | _, _ => none

/-- `_process_single_action`: dispatch one action against the legacy store,
returning success and the new store.  `cid` is the `uuid4()` draw used when
a comment row must be created; `now` is `datetime.now()`. -/
def dispatchAction (s : DMState) (user : LUser) (a : BatchAction) (cid : String)
    (now : Nat) : Bool × DMState :=
  match a.action_type with
  | .select =>
    match actionIds a with
    | none => (false, s)
    | some (ph, pr) =>
      let (r, s1) := dmUpdateProjectImage s pr ph
        { is_selected := some (a.payload.selected.getD false)
          is_favorite := none, tags := none } now
      (r.isSome, s1)
  | .favorite =>
    match actionIds a with
    | none => (false, s)
    | some (ph, pr) =>
      let (r, s1) := dmUpdateProjectImage s pr ph
        { is_selected := none
          is_favorite := some (a.payload.favorite.getD false), tags := none } now
      (r.isSome, s1)
  | .comment =>
    match actionIds a with
    | none => (false, s)
    | some (ph, pr) =>
      let text := a.payload.commentText.getD ""
      if stripStr text = "" then (false, s)
      else
        let c : LComment := { id := cid, image_id := ph, project_id := pr
                              user_id := user.id, user_name := user.name
                              user_role := user.role, content := text
                              parent_id := a.payload.parentId
                              created_at := now, updated_at := now }
        -- `create_comment` always returns the comment, so this branch
        -- always reports success, even for a nonexistent image.
        (true, dmCreateComment s c)
  | .approve =>
    match actionIds a with
    | none => (false, s)
    | some (ph, pr) =>
      let approved := a.payload.approved.getD false
      match dmGetProject s pr with
      | none => (false, s)
      | some project =>
        match project.images.find? (fun img => img.id = ph) with
        | none => (false, s)
        | some image =>
          let current := image.tags
          let tags1 :=
            if approved ∧ "approved" ∉ current then current ++ ["approved"]
            else if ¬ approved ∧ "approved" ∈ current then current.erase "approved"
            else current
          let (r, s1) := dmUpdateProjectImage s pr ph
            { is_selected := none, is_favorite := none, tags := some tags1 } now
          (r.isSome, s1)
  | .download => (true, s)

structure BResult where
  clientActionId : String
  reason : String
  deriving DecidableEq, Repr

/-- The accumulator-free core loop of `process_batch_actions`: consume the
action list, carrying the set of already-seen `client_action_id`s, the
store and the uuid counter; produce the `accepted` and `failed` lists in
request order. -/
def runBatch (user : LUser) (uu : Nat → String) (now : Nat) :
    List BatchAction → List String → DMState → Nat →
    (List String × List BResult × DMState)
  | [], _, s, _ => ([], [], s)
  | a :: rest, seen, s, k =>
    if a.client_action_id ∈ seen then
      let r := runBatch user uu now rest seen s k
      (r.1, ⟨a.client_action_id, dupReason⟩ :: r.2.1, r.2.2)
    else
      let d := dispatchAction s user a (uu k) now
      let r := runBatch user uu now rest (a.client_action_id :: seen) d.2 (k + 1)
      if d.1 then (a.client_action_id :: r.1, r.2.1, r.2.2)
      else (r.1, ⟨a.client_action_id, failReason a.action_type⟩ :: r.2.1, r.2.2)

structure BatchMetadata where
  processed_count : Nat
  total_count : Nat
  deriving DecidableEq, Repr

structure BatchResponse where
  accepted : List String
  failed : List BResult
  metadata : BatchMetadata
  deriving DecidableEq, Repr

/-- `POST /api/actions/batch`. -/
def processBatchActions (user : LUser) (uu : Nat → String) (now : Nat)
    (s : DMState) (actions : List BatchAction) : BatchResponse × DMState :=
  let r := runBatch user uu now actions [] s 0
  (⟨r.1, r.2.1, ⟨r.1.length, actions.length⟩⟩, r.2.2)

/-! ### Path traversal analysis

`climbsAbove d segs` walks the path components relative to a directory at
depth `d` below the uploads root and reports whether resolving them ever
steps above the root (`'..'` pops a level, `'.'` and empty components are
no-ops, anything else descends). -/

def climbsAbove (d : Int) : List String → Bool
  | [] => false
  | seg :: rest =>
    if seg = ".." then decide (d - 1 < 0) || climbsAbove (d - 1) rest
    else if seg = "." ∨ seg = "" then climbsAbove d rest
    else climbsAbove (d + 1) rest

/-! ### Outcome-counting predicates for the batch response -/

/-- A failure entry for id `x` with the duplicate-detection reason. -/
def isDupFor (x : String) (r : BResult) : Bool :=
  r.clientActionId = x ∧ r.reason = dupReason

/-- A failure entry for id `x` with a genuine (non-duplicate) reason. -/
def isGenFor (x : String) (r : BResult) : Bool :=
  r.clientActionId = x ∧ r.reason ≠ dupReason

/-- Any failure entry for id `x`. -/
def isFailFor (x : String) (r : BResult) : Bool :=
  r.clientActionId = x

/-- An accepted entry for id `x`. -/
def isIdEq (x y : String) : Bool := y = x

/-- An action carrying id `x`. -/
def actionIdEq (x : String) (a : BatchAction) : Bool := a.client_action_id = x

/-! ### Sample states (concrete inputs for witnesses and counterexamples) -/

def sampleUser : SUser :=
  { id := "u1", studio_id := some "s1", name := "Owner", role := "studio_owner" }

def sampleProject : SProject :=
  { id := "p1", studio_id := "s1", client_id := "cl1", name := "Wedding"
    access_url := "wedding-p1", status := "draft", total_images := 0
    selected_images := 0, total_comments := 0, storage_used_bytes := 0
    created_at := 0, updated_at := 0 }

def sampleCategory : SCategory :=
  { id := "cat1", project_id := "p1", name := "all", display_name := "All Photos"
    order_index := 1, is_default := true, image_count := 0
    created_at := 0, updated_at := 0 }

/-- 100 bytes starting with the JPEG magic; not valid UTF-8, so it passes
the text sniff. -/
def jpegBytes : List Nat := [0xFF, 0xD8, 0xFF] ++ List.replicate 97 0xFF

/-- 100 zero bytes: a `.jpg` whose first three bytes are not `FF D8 FF`. -/
def badJpegBytes : List Nat := List.replicate 100 0

def sampleWorld : World :=
  { db := { projects := [sampleProject], categories := [sampleCategory]
            images := [], versions := [], comments := [], tags := [] }
    store := { files := [(⟨"p1", "cat1", "wedding.jpg"⟩, jpegBytes)] } }

def samplePayload : CompletePayload :=
  { project_id := "p1", category_id := none, file_name := "wedding.jpg"
    original_file_name := "wedding.jpg", file_size := 100, content_type := none }

def sampleImage (i : String) (t : Nat) : SImage :=
  { id := i, project_id := "p1", category_id := "cat1", uploaded_by := "u1"
    original_filename := i ++ ".jpg", s3_key_original := "/uploads/p1/cat1/" ++ i
    s3_key_thumbnail := none, s3_key_preview := none, s3_key_print := none
    file_size_bytes := 10, mime_type := "image/jpeg", width := none, height := none
    rating := 0, is_favorite := false, is_selected := false, comment_count := 0
    status := "ready", uploaded_at := t, updated_at := t, tagIds := [] }

/-- A world holding one project with two images (counters consistent). -/
def sampleWorld2 : World :=
  { db := { projects := [{ sampleProject with total_images := 2 }]
            categories := [{ sampleCategory with image_count := 2 }]
            images := [sampleImage "i1" 1, sampleImage "i2" 2]
            versions := [], comments := [], tags := [] }
    store := { files := [] } }

/-- Legacy-store sample for the batch endpoint. -/
def sampleLImage (i : String) : LImage :=
  { id := i, original_file_name := i ++ ".jpg", category_id := "c1", versions := []
    tags := [], is_selected := false, is_favorite := false, comment_count := 0
    created_at := 0, updated_at := 0 }

def sampleLProject : LProject :=
  { id := "p1", name := "P", client_name := "C", client_email := "c@x"
    studio_id := "s1", categories := [], images := [sampleLImage "i1", sampleLImage "i3"]
    status := "active", created_at := 0, updated_at := 0, access_url := "u" }

def sampleDM : DMState := { projects := [sampleLProject], comments := [] }

def sampleLUser : LUser :=
  { id := "user-001", name := "Photo Studio", email := "studio@photoproof.com"
    role := "studio", studio_id := some "studio-001" }

/-- A select action against the sample legacy project. -/
def sampleSelect (cid ph : String) : BatchAction :=
  { client_action_id := cid, action_type := .select, photo_id := some ph
    project_id := some "p1"
    payload := { selected := some true, favorite := none, commentText := none
                 parentId := none, approved := none }
    timestamp := 0 }

def sampleUuid (k : Nat) : String := "uuid-" ++ toString k

/-- A comment action against the sample legacy project. -/
def sampleCommentAction : BatchAction :=
  { client_action_id := "c1", action_type := .comment, photo_id := some "i1"
    project_id := some "p1"
    payload := { selected := none, favorite := none, commentText := some "Nice shot"
                 parentId := some "parent-1", approved := none }
    timestamp := 0 }

def samplePayloadBad : CompletePayload :=
  { project_id := "p1", category_id := none, file_name := "photo.jpg"
    original_file_name := "photo.jpg", file_size := 100, content_type := none }

/-- The sample world with a `.jpg` whose first bytes are not the JPEG magic
streamed to the destination. -/
def sampleWorldBad : World :=
  { db := sampleWorld.db
    store := { files := [(⟨"p1", "cat1", "photo.jpg"⟩, badJpegBytes)] } }

def sampleCommentReq : CreateCommentRequest :=
  { content := "Love this shot", parent_id := some "c0" }

def sampleUpdateReq : UpdateImageRequest :=
  { category_id := none, is_selected := some true, is_favorite := none
    rating := none, tags := none }

/-- The project-level comment total the legacy store can express: the sum of
its images' `comment_count`s (this is how `get_studio_stats` aggregates
`total_comments`; the legacy `Project` record itself stores no such field). -/
def sumCommentCounts (l : List LImage) : Nat :=
  (l.map (fun i => i.comment_count)).sum

def sampleLComment : LComment :=
  { id := "cm1", image_id := "i1", project_id := "p1", user_id := "user-001"
    user_name := "Photo Studio", user_role := "studio", content := "Nice shot"
    parent_id := some "parent-1", created_at := 7, updated_at := 7 }

/-! Concrete post-states for exercising the three mutating operations. -/

def c2NewImage : SImage :=
  newImageRow "img-new" "p1" "cat1" sampleUser samplePayload
    (assetUrl ⟨"p1", "cat1", "wedding.jpg"⟩) 100
    (mimeFor samplePayload "wedding.jpg") (none, none) 5

def c2NewVersion : SVersion :=
  newVersionRow "ver-new" "img-new" sampleUser
    (assetUrl ⟨"p1", "cat1", "wedding.jpg"⟩) 100 (none, none) 5

def c2World1 : World :=
  insertImageWorld sampleWorld "p1" "cat1" c2NewImage c2NewVersion 100 5

def c2Image2 : SImage := { sampleImage "i1" 1 with is_selected := true, updated_at := 9 }

def c2World2 : World :=
  updateWorld sampleWorld2 (sampleImage "i1" 1) "i1" c2Image2 "cat1" "cat1" [] 9

def c2Comment : SComment :=
  { id := "cm-new", image_id := "i1", user_id := "u1", parent_id := some "c0"
    content := "Love this shot", resolved := false, created_at := 9, updated_at := 9 }

def c2World3 : World :=
  { sampleWorld2 with db := { sampleWorld2.db with
      comments := [c2Comment]
      images := [{ sampleImage "i1" 1 with comment_count := 1, updated_at := 9 },
                 sampleImage "i2" 2]
      projects := [{ sampleProject with
                     total_images := 2, total_comments := 1, updated_at := 9 }] } }

-- (end of definitions)

/-! ## Lemmas and claim theorems -/

theorem splitSlashes_ne_nil (cs : List Char) : splitSlashes cs ≠ [] := by
  induction cs with
  | nil => simp [splitSlashes]
  | cons c rest ih =>
    simp only [splitSlashes]
    split
    · simp
    · cases h : splitSlashes rest with
      | nil => simp
      | cons s ss => simp

theorem no_slash_of_mem_splitSlashes (cs : List Char) (seg : List Char)
    (h : seg ∈ splitSlashes cs) : '/' ∉ seg := by
  induction cs generalizing seg with
  | nil =>
    simp [splitSlashes] at h
    simp [h]
  | cons c rest ih =>
    simp only [splitSlashes] at h
    by_cases hc : c = '/'
    · rw [if_pos hc] at h
      rcases List.mem_cons.mp h with h1 | h2
      · simp [h1]
      · exact ih seg h2
    · rw [if_neg hc] at h
      cases hr : splitSlashes rest with
      | nil => exact absurd hr (splitSlashes_ne_nil rest)
      | cons s ss =>
        rw [hr] at h
        rcases List.mem_cons.mp h with h1 | h2
        · subst h1
          intro hmem
          rcases List.mem_cons.mp hmem with h3 | h4
          · exact hc h3.symm
          · exact ih s (by rw [hr]; exact List.mem_cons_self ..) h4
        · exact ih seg (by rw [hr]; exact List.mem_cons_of_mem _ h2)

theorem sanitizeSegChars_cases (cs : List Char) :
    sanitizeSegChars cs = [] ∨
    (sanitizeSegChars cs ∈ splitSlashes cs ∧ sanitizeSegChars cs ≠ [] ∧
     sanitizeSegChars cs ≠ ['.']) := by
  unfold sanitizeSegChars
  cases h : ((splitSlashes cs).filter (fun p => p ≠ [] ∧ p ≠ ['.'])).getLast? with
  | none => left; rfl
  | some seg =>
    right
    have hmem : seg ∈ (splitSlashes cs).filter (fun p => p ≠ [] ∧ p ≠ ['.']) := by
      obtain ⟨hne, heq⟩ := List.mem_getLast?_eq_getLast (Option.mem_def.mpr h)
      rw [heq]
      exact List.getLast_mem hne
    have hsplit := List.mem_filter.mp hmem
    have hpred := hsplit.2
    simp only [decide_eq_true_eq] at hpred
    refine ⟨hsplit.1, ?_, ?_⟩ <;> simp [hpred.1, hpred.2]

theorem sanitizeSegment_no_slash (s : String) : '/' ∉ (sanitizeSegment s).data := by
  show '/' ∉ sanitizeSegChars s.data
  rcases sanitizeSegChars_cases s.data with h | ⟨hmem, _, _⟩
  · simp [h]
  · exact no_slash_of_mem_splitSlashes _ _ hmem

theorem sanitizeSegment_ne_dot (s : String) : sanitizeSegment s ≠ "." := by
  intro h
  have hd : sanitizeSegChars s.data = ['.'] := congrArg String.data h
  rcases sanitizeSegChars_cases s.data with h0 | ⟨_, _, hne⟩
  · rw [h0] at hd; exact List.noConfusion hd
  · exact hne hd

/-- C9.  Every input file name is sanitized to a single path segment (its
sanitized form contains no `'/'`), the destination path is exactly
`UPLOADS_ROOT / projectSegment / categorySegment / fileSegment`, and
resolving that component list never climbs above the uploads root.  The
project and category segments come from database ids, which are never `".."`
or empty (they are uuid strings); the file segment is adversarial. -/
theorem claim9_upload_path_single_segment_no_escape :
    ∀ (project_id category_id file_name : String),
      sanitizeSegment project_id ≠ ".." → sanitizeSegment project_id ≠ "" →
      sanitizeSegment category_id ≠ ".." → sanitizeSegment category_id ≠ "" →
      ('/' ∉ (sanitizeSegment file_name).data ∧
       destKey project_id category_id file_name =
         ⟨sanitizeSegment project_id, sanitizeSegment category_id,
          sanitizeSegment file_name⟩ ∧
       climbsAbove 0 [sanitizeSegment project_id, sanitizeSegment category_id,
                      sanitizeSegment file_name] = false) := by
  intro pid cid fn hp2 hp0 hc2 hc0
  refine ⟨sanitizeSegment_no_slash fn, rfl, ?_⟩
  have hp1 := sanitizeSegment_ne_dot pid
  have hc1 := sanitizeSegment_ne_dot cid
  simp only [climbsAbove]
  rw [if_neg hp2, if_neg (by simp [hp1, hp0]), if_neg hc2,
      if_neg (by simp [hc1, hc0])]
  by_cases hf : sanitizeSegment fn = ".."
  · rw [if_pos hf]
    simp [climbsAbove]
  · rw [if_neg hf]
    by_cases hf2 : sanitizeSegment fn = "." ∨ sanitizeSegment fn = ""
    · rw [if_pos hf2]
    · rw [if_neg hf2]

/-! Batch reconciliation lemmas.  `runBatch` is analysed by induction on the
action list, generalising the seen-set, store and uuid counter. -/

theorem failReason_ne_dupReason (t : BatchActionType) : failReason t ≠ dupReason := by
  cases t <;> decide

/-- Every action contributes exactly one outcome entry. -/
theorem runBatch_length (user : LUser) (uu : Nat → String) (now : Nat) :
    ∀ (actions : List BatchAction) (seen : List String) (s : DMState) (k : Nat),
      (runBatch user uu now actions seen s k).1.length +
        (runBatch user uu now actions seen s k).2.1.length = actions.length := by
  intro actions
  induction actions with
  | nil => intro seen s k; rfl
  | cons a rest ih =>
    intro seen s k
    simp only [runBatch]
    split
    · have h := ih seen s k
      simp only [List.length_cons]
      omega
    · split
      all_goals
        have h := ih (a.client_action_id :: seen) (dispatchAction s user a (uu k) now).2 (k + 1)
        simp only [List.length_cons]
        omega

/-- Outcome bookkeeping for a fixed `client_action_id` `x`.  Writing
`dup fl` for the duplicate-reason failures carrying `x` and
`gen acc fl` for `x`'s accepted entries plus non-duplicate failures:
if `x` was already seen, every occurrence in the remaining actions becomes a
duplicate failure and none is dispatched; if not, all but the first become
duplicate failures and exactly the first occurrence (if any) is dispatched,
ending up accepted or failed with a genuine reason. -/
theorem isDupFor_dup_entry (x cid : String) :
    isDupFor x ⟨cid, dupReason⟩ = decide (cid = x) := by
  simp [isDupFor]

theorem isGenFor_dup_entry (x cid : String) : isGenFor x ⟨cid, dupReason⟩ = false := by
  simp [isGenFor]

theorem isDupFor_gen_entry (x cid : String) (t : BatchActionType) :
    isDupFor x ⟨cid, failReason t⟩ = false := by
  simp [isDupFor, failReason_ne_dupReason t]

theorem isGenFor_gen_entry (x cid : String) (t : BatchActionType) :
    isGenFor x ⟨cid, failReason t⟩ = decide (cid = x) := by
  simp [isGenFor, failReason_ne_dupReason t]

theorem isIdEq_eval (x y : String) : isIdEq x y = decide (y = x) := by
  simp [isIdEq]

theorem actionIdEq_eval (x : String) (a : BatchAction) :
    actionIdEq x a = decide (a.client_action_id = x) := by
  simp [actionIdEq]

theorem runBatch_count_spec (user : LUser) (uu : Nat → String) (now : Nat)
    (x : String) :
    ∀ (actions : List BatchAction) (seen : List String) (s : DMState) (k : Nat),
      (x ∈ seen →
        ((runBatch user uu now actions seen s k).2.1.countP (isDupFor x)
          = actions.countP (actionIdEq x)) ∧
        ((runBatch user uu now actions seen s k).1.countP (isIdEq x) = 0) ∧
        ((runBatch user uu now actions seen s k).2.1.countP (isGenFor x) = 0)) ∧
      (x ∉ seen →
        ((runBatch user uu now actions seen s k).2.1.countP (isDupFor x)
          = actions.countP (actionIdEq x) - 1) ∧
        ((runBatch user uu now actions seen s k).1.countP (isIdEq x) +
         (runBatch user uu now actions seen s k).2.1.countP (isGenFor x)
          = min (actions.countP (actionIdEq x)) 1)) := by
  intro actions
  induction actions with
  | nil =>
    intro seen s k
    constructor
    · intro _; exact ⟨rfl, rfl, rfl⟩
    · intro _; exact ⟨rfl, rfl⟩
  | cons a rest ih =>
    intro seen s k
    have hcount : (a :: rest).countP (actionIdEq x)
        = rest.countP (actionIdEq x) + if a.client_action_id = x then 1 else 0 := by
      rw [List.countP_cons, actionIdEq_eval]
      by_cases hax : a.client_action_id = x <;> simp [hax]
    by_cases hseen : a.client_action_id ∈ seen
    · -- duplicate branch: one more dupReason entry for a\'s id
      have hrun : runBatch user uu now (a :: rest) seen s k =
          ((runBatch user uu now rest seen s k).1,
           ⟨a.client_action_id, dupReason⟩ :: (runBatch user uu now rest seen s k).2.1,
           (runBatch user uu now rest seen s k).2.2) := by
        simp only [runBatch, if_pos hseen]
      constructor
      · intro hx
        obtain ⟨ihd, iha, ihg⟩ := (ih seen s k).1 hx
        refine ⟨?_, ?_, ?_⟩
        all_goals rw [hrun]
        all_goals simp only [List.countP_cons, isDupFor_dup_entry, isGenFor_dup_entry,
          ihd, iha, ihg, hcount]
        all_goals by_cases hax : a.client_action_id = x
        all_goals try simp [hax]
        all_goals omega
      · intro hx
        have hax : ¬ a.client_action_id = x := fun he => hx (he ▸ hseen)
        obtain ⟨ihd, ihag⟩ := (ih seen s k).2 hx
        refine ⟨?_, ?_⟩
        all_goals rw [hrun]
        all_goals simp only [List.countP_cons, isDupFor_dup_entry, isGenFor_dup_entry, hcount]
        all_goals try simp only [hax, decide_False, Bool.false_eq_true, if_false, Nat.add_zero]
        all_goals omega
    · -- fresh id: a is dispatched, then processing continues with a marked seen
      have hrun : runBatch user uu now (a :: rest) seen s k =
          (if (dispatchAction s user a (uu k) now).1 then
            (a.client_action_id :: (runBatch user uu now rest (a.client_action_id :: seen)
                (dispatchAction s user a (uu k) now).2 (k + 1)).1,
             (runBatch user uu now rest (a.client_action_id :: seen)
                (dispatchAction s user a (uu k) now).2 (k + 1)).2.1,
             (runBatch user uu now rest (a.client_action_id :: seen)
                (dispatchAction s user a (uu k) now).2 (k + 1)).2.2)
          else
            ((runBatch user uu now rest (a.client_action_id :: seen)
                (dispatchAction s user a (uu k) now).2 (k + 1)).1,
             ⟨a.client_action_id, failReason a.action_type⟩ ::
               (runBatch user uu now rest (a.client_action_id :: seen)
                  (dispatchAction s user a (uu k) now).2 (k + 1)).2.1,
             (runBatch user uu now rest (a.client_action_id :: seen)
                (dispatchAction s user a (uu k) now).2 (k + 1)).2.2)) := by
        simp only [runBatch, if_neg hseen]
      set s1 := (dispatchAction s user a (uu k) now).2 with hs1
      constructor
      · intro hx
        have hax : ¬ a.client_action_id = x := fun he => hseen (he ▸ hx)
        obtain ⟨ihd, iha, ihg⟩ := (ih (a.client_action_id :: seen) s1 (k + 1)).1
          (List.mem_cons_of_mem _ hx)
        rw [hrun]
        split
        all_goals refine ⟨?_, ?_, ?_⟩
        all_goals simp only [List.countP_cons, isDupFor_dup_entry, isGenFor_dup_entry,
          isDupFor_gen_entry, isGenFor_gen_entry, isIdEq_eval, ihd, iha, ihg, hcount]
        all_goals try simp only [hax, decide_False, Bool.false_eq_true, if_false, Nat.add_zero]
        all_goals omega
      · intro hx
        by_cases hax : a.client_action_id = x
        · -- the first occurrence of x: afterwards x is in the seen set
          obtain ⟨ihd, iha, ihg⟩ := (ih (a.client_action_id :: seen) s1 (k + 1)).1
            (by rw [hax]; exact List.mem_cons_self ..)
          rw [hrun]
          split
          all_goals refine ⟨?_, ?_⟩
          all_goals simp only [List.countP_cons, isDupFor_dup_entry, isGenFor_dup_entry,
            isDupFor_gen_entry, isGenFor_gen_entry, isIdEq_eval, ihd, iha, ihg, hcount]
          all_goals try simp only [hax, eq_self_iff_true, decide_True, decide_False,
            Bool.false_eq_true, if_true, if_false, Nat.add_zero]
          all_goals omega
        · -- some other id: x stays unseen
          obtain ⟨ihd, ihag⟩ := (ih (a.client_action_id :: seen) s1 (k + 1)).2
            (by intro hmem; rcases List.mem_cons.mp hmem with h | h
                · exact hax h.symm
                · exact hx h)
          rw [hrun]
          split
          all_goals refine ⟨?_, ?_⟩
          all_goals simp only [List.countP_cons, isDupFor_dup_entry, isGenFor_dup_entry,
            isDupFor_gen_entry, isGenFor_gen_entry, isIdEq_eval, ihd, hcount]
          all_goals try simp only [hax, decide_False, Bool.false_eq_true, if_false, Nat.add_zero]
          all_goals omega

/-- Splitting the failures carrying `x` into duplicate and genuine reasons. -/
theorem countP_split_reason (fl : List BResult) (x : String) :
    fl.countP (isFailFor x) =
      fl.countP (isDupFor x) + fl.countP (isGenFor x) := by
  induction fl with
  | nil => rfl
  | cons r rest ih =>
    rw [List.countP_cons, List.countP_cons, List.countP_cons, ih]
    by_cases hc : r.clientActionId = x
    · by_cases hd : r.reason = dupReason
      · simp [isFailFor, isDupFor, isGenFor, hc, hd]
        omega
      · simp [isFailFor, isDupFor, isGenFor, hc, hd]
        omega
    · simp [isFailFor, isDupFor, isGenFor, hc]

/-- No duplicate-reason failure is ever emitted for a batch whose ids are
pairwise distinct and disjoint from the seen-set. -/
theorem runBatch_nodup_no_dupReason (user : LUser) (uu : Nat → String) (now : Nat) :
    ∀ (actions : List BatchAction) (seen : List String) (s : DMState) (k : Nat),
      (∀ a ∈ actions, a.client_action_id ∉ seen) →
      (actions.map (·.client_action_id)).Nodup →
      ∀ r ∈ (runBatch user uu now actions seen s k).2.1, r.reason ≠ dupReason := by
  intro actions
  induction actions with
  | nil => intro seen s k _ _ r hr; simp [runBatch] at hr
  | cons a rest ih =>
    intro seen s k hdisj hnodup r hr
    have hseen : a.client_action_id ∉ seen := hdisj a (List.mem_cons_self ..)
    rw [List.map_cons, List.nodup_cons] at hnodup
    have hdisj' : ∀ b ∈ rest, b.client_action_id ∉ (a.client_action_id :: seen) := by
      intro b hb hmem
      rcases List.mem_cons.mp hmem with h | h
      · exact hnodup.1 (h ▸ List.mem_map_of_mem _ hb)
      · exact hdisj b (List.mem_cons_of_mem _ hb) h
    simp only [runBatch, if_neg hseen] at hr
    rcases hif : (dispatchAction s user a (uu k) now).1 with hv | hv
    · rw [hif] at hr
      simp only [Bool.false_eq_true, if_false] at hr
      rcases List.mem_cons.mp hr with h | h
      · rw [h]; exact failReason_ne_dupReason a.action_type
      · exact ih (a.client_action_id :: seen)
          (dispatchAction s user a (uu k) now).2 (k + 1) hdisj' hnodup.2 r h
    · rw [hif] at hr
      simp only [if_true] at hr
      exact ih (a.client_action_id :: seen)
        (dispatchAction s user a (uu k) now).2 (k + 1) hdisj' hnodup.2 r hr

/-- The number of actions in a batch carrying id `x` is the count of `x`
among the batch's ids. -/
theorem countP_actionIdEq_eq_count (actions : List BatchAction) (x : String) :
    actions.countP (actionIdEq x) = (actions.map (·.client_action_id)).count x := by
  induction actions with
  | nil => rfl
  | cons a rest ih =>
    rw [List.countP_cons, actionIdEq_eval, List.map_cons, List.count_cons, ih]
    by_cases hax : a.client_action_id = x <;> simp [hax]

/-- C4 counterexample.  A batch containing two actions with the same
`client_action_id` produces the failure reason
`"Duplicate client_action_id in batch"` (capital D); no failure entry
carries the reason `"duplicate client_action_id in batch"` that the claim
quotes, so the claim as stated is false at this input. -/
theorem claim4_counterexample :
    ((processBatchActions sampleLUser sampleUuid 5 sampleDM
        [sampleSelect "a1" "i1", sampleSelect "a1" "i3"]).1.failed.countP
      (fun r => r.reason = "duplicate client_action_id in batch") = 0) ∧
    (processBatchActions sampleLUser sampleUuid 5 sampleDM
        [sampleSelect "a1" "i1", sampleSelect "a1" "i3"]).1.failed =
      [⟨"a1", "Duplicate client_action_id in batch"⟩] ∧
    (processBatchActions sampleLUser sampleUuid 5 sampleDM
        [sampleSelect "a1" "i1", sampleSelect "a1" "i3"]).1.accepted = ["a1"] := by
  refine ⟨?_, ?_, ?_⟩ <;> decide

/-- C4 (amended: the in-batch duplicate failure reason is
`"Duplicate client_action_id in batch"`, with a capital D).  For every batch
containing exactly two actions with the same `client_action_id` `x`, exactly
one failure entry for `x` carries the duplicate reason, and exactly one
occurrence of `x` is dispatched — ending up accepted or failed with a
genuine (non-duplicate) reason.  Duplicate detection is only per-request:
whatever store the request starts from (including one left by previous
requests), a batch with pairwise-distinct ids never produces a duplicate
failure. -/
theorem claim4_batch_duplicate_detection :
    ∀ (user : LUser) (uu : Nat → String) (now : Nat) (s : DMState)
      (actions : List BatchAction) (x : String),
      (actions.countP (actionIdEq x) = 2 →
        ((processBatchActions user uu now s actions).1.failed.countP (isDupFor x) = 1 ∧
         (processBatchActions user uu now s actions).1.accepted.countP (isIdEq x) +
           (processBatchActions user uu now s actions).1.failed.countP (isGenFor x)
           = 1)) ∧
      ((actions.map (·.client_action_id)).Nodup →
        ∀ r ∈ (processBatchActions user uu now s actions).1.failed,
          r.reason ≠ dupReason) := by
  intro user uu now s actions x
  constructor
  · intro h2
    obtain ⟨hd, hag⟩ := (runBatch_count_spec user uu now x actions [] s 0).2
      (List.not_mem_nil x)
    refine ⟨?_, ?_⟩
    · show (runBatch user uu now actions [] s 0).2.1.countP (isDupFor x) = 1
      rw [hd, h2]
    · show (runBatch user uu now actions [] s 0).1.countP (isIdEq x) +
        (runBatch user uu now actions [] s 0).2.1.countP (isGenFor x) = 1
      rw [hag, h2]
      rfl
  · intro hnodup
    exact runBatch_nodup_no_dupReason user uu now actions [] s 0
      (fun a _ => List.not_mem_nil _) hnodup

/-- C4 witness: the concrete duplicate batch of the counterexample input,
with the amended conclusions evaluated. -/
theorem claim4_witness :
    ([sampleSelect "a1" "i1", sampleSelect "a1" "i3"].countP (actionIdEq "a1") = 2) ∧
    ((processBatchActions sampleLUser sampleUuid 5 sampleDM
        [sampleSelect "a1" "i1", sampleSelect "a1" "i3"]).1.failed.countP
      (isDupFor "a1") = 1 ∧
     (processBatchActions sampleLUser sampleUuid 5 sampleDM
        [sampleSelect "a1" "i1", sampleSelect "a1" "i3"]).1.accepted.countP
      (isIdEq "a1") +
     (processBatchActions sampleLUser sampleUuid 5 sampleDM
        [sampleSelect "a1" "i1", sampleSelect "a1" "i3"]).1.failed.countP
      (isGenFor "a1") = 1) :=
  ⟨by decide,
   (claim4_batch_duplicate_detection sampleLUser sampleUuid 5 sampleDM
     [sampleSelect "a1" "i1", sampleSelect "a1" "i3"] "a1").1 (by decide)⟩

/-- C5.  A failure of one action never aborts the batch: every action
contributes exactly one outcome entry (`|accepted| + |failed| = |actions|`),
`metadata.processed_count` is the number of accepted entries,
`metadata.total_count` is the number submitted, and — when the submitted
ids are pairwise distinct — each action's id ends up in exactly one of
`accepted` or `failed`. -/
theorem claim5_batch_partial_failure :
    ∀ (user : LUser) (uu : Nat → String) (now : Nat) (s : DMState)
      (actions : List BatchAction),
      ((processBatchActions user uu now s actions).1.accepted.length +
        (processBatchActions user uu now s actions).1.failed.length
        = actions.length) ∧
      ((processBatchActions user uu now s actions).1.metadata.processed_count =
        (processBatchActions user uu now s actions).1.accepted.length) ∧
      ((processBatchActions user uu now s actions).1.metadata.total_count =
        actions.length) ∧
      ((actions.map (·.client_action_id)).Nodup →
        ∀ a ∈ actions,
          ((processBatchActions user uu now s actions).1.accepted.countP
              (isIdEq a.client_action_id) = 1 ∧
           (processBatchActions user uu now s actions).1.failed.countP
              (isFailFor a.client_action_id) = 0) ∨
          ((processBatchActions user uu now s actions).1.accepted.countP
              (isIdEq a.client_action_id) = 0 ∧
           (processBatchActions user uu now s actions).1.failed.countP
              (isFailFor a.client_action_id) = 1)) := by
  intro user uu now s actions
  refine ⟨runBatch_length user uu now actions [] s 0, rfl, rfl, ?_⟩
  intro hnodup a ha
  set x := a.client_action_id with hxdef
  have hone : actions.countP (actionIdEq x) = 1 := by
    have hle : (actions.map (·.client_action_id)).count x ≤ 1 :=
      List.nodup_iff_count_le_one.mp hnodup x
    have hpos : 0 < actions.countP (actionIdEq x) :=
      List.countP_pos_iff.mpr ⟨a, ha, by simp [actionIdEq]⟩
    rw [countP_actionIdEq_eq_count] at hpos ⊢
    omega
  obtain ⟨hd, hag⟩ := (runBatch_count_spec user uu now x actions [] s 0).2
    (List.not_mem_nil x)
  rw [hone] at hd hag
  have hsplit := countP_split_reason (runBatch user uu now actions [] s 0).2.1 x
  show ((runBatch user uu now actions [] s 0).1.countP (isIdEq x) = 1 ∧
        (runBatch user uu now actions [] s 0).2.1.countP (isFailFor x) = 0) ∨
       ((runBatch user uu now actions [] s 0).1.countP (isIdEq x) = 0 ∧
        (runBatch user uu now actions [] s 0).2.1.countP (isFailFor x) = 1)
  omega

/-- C5 witness: three select actions, the second referencing a nonexistent
photo: accepted = actions 1 and 3, failed = action 2, processed_count 2,
total_count 3. -/
theorem claim5_witness :
    ((processBatchActions sampleLUser sampleUuid 5 sampleDM
        [sampleSelect "a1" "i1", sampleSelect "a2" "iMISSING",
         sampleSelect "a3" "i3"]).1.accepted = ["a1", "a3"] ∧
     (processBatchActions sampleLUser sampleUuid 5 sampleDM
        [sampleSelect "a1" "i1", sampleSelect "a2" "iMISSING",
         sampleSelect "a3" "i3"]).1.failed.map (·.clientActionId) = ["a2"] ∧
     (processBatchActions sampleLUser sampleUuid 5 sampleDM
        [sampleSelect "a1" "i1", sampleSelect "a2" "iMISSING",
         sampleSelect "a3" "i3"]).1.metadata.processed_count = 2 ∧
     (processBatchActions sampleLUser sampleUuid 5 sampleDM
        [sampleSelect "a1" "i1", sampleSelect "a2" "iMISSING",
         sampleSelect "a3" "i3"]).1.metadata.total_count = 3) ∧
    (∀ a ∈ [sampleSelect "a1" "i1", sampleSelect "a2" "iMISSING",
            sampleSelect "a3" "i3"],
       ((processBatchActions sampleLUser sampleUuid 5 sampleDM
           [sampleSelect "a1" "i1", sampleSelect "a2" "iMISSING",
            sampleSelect "a3" "i3"]).1.accepted.countP
           (isIdEq a.client_action_id) = 1 ∧
        (processBatchActions sampleLUser sampleUuid 5 sampleDM
           [sampleSelect "a1" "i1", sampleSelect "a2" "iMISSING",
            sampleSelect "a3" "i3"]).1.failed.countP
           (isFailFor a.client_action_id) = 0) ∨
       ((processBatchActions sampleLUser sampleUuid 5 sampleDM
           [sampleSelect "a1" "i1", sampleSelect "a2" "iMISSING",
            sampleSelect "a3" "i3"]).1.accepted.countP
           (isIdEq a.client_action_id) = 0 ∧
        (processBatchActions sampleLUser sampleUuid 5 sampleDM
           [sampleSelect "a1" "i1", sampleSelect "a2" "iMISSING",
            sampleSelect "a3" "i3"]).1.failed.countP
           (isFailFor a.client_action_id) = 1)) :=
  ⟨⟨by decide, by decide, by decide, by decide⟩,
   (claim5_batch_partial_failure sampleLUser sampleUuid 5 sampleDM
     [sampleSelect "a1" "i1", sampleSelect "a2" "iMISSING",
      sampleSelect "a3" "i3"]).2.2.2 (by decide)⟩

/-- C10.  A `client_action_id` is added to the seen-set before its action is
dispatched, so any later occurrence of the same id in the batch is reported
as an in-batch duplicate even when the first occurrence failed; and each
distinct id contributes at most one entry to `accepted`. -/
theorem claim10_seen_before_dispatch :
    ∀ (user : LUser) (uu : Nat → String) (now : Nat) (s : DMState)
      (actions : List BatchAction) (x : String),
      (2 ≤ actions.countP (actionIdEq x) →
        ∃ r ∈ (processBatchActions user uu now s actions).1.failed,
          r.clientActionId = x ∧ r.reason = dupReason) ∧
      (processBatchActions user uu now s actions).1.accepted.countP (isIdEq x) ≤ 1 := by
  intro user uu now s actions x
  obtain ⟨hd, hag⟩ := (runBatch_count_spec user uu now x actions [] s 0).2
    (List.not_mem_nil x)
  constructor
  · intro h2
    have hpos : 0 < (runBatch user uu now actions [] s 0).2.1.countP (isDupFor x) := by
      omega
    obtain ⟨r, hr, hp⟩ := List.countP_pos_iff.mp hpos
    refine ⟨r, hr, ?_⟩
    simpa [isDupFor] using hp
  · show (runBatch user uu now actions [] s 0).1.countP (isIdEq x) ≤ 1
    omega

/-- C10 witness: the first occurrence of `"a1"` fails genuinely (the photo
does not exist), the second is still reported as a duplicate. -/
theorem claim10_witness :
    (2 ≤ [sampleSelect "a1" "iMISSING", sampleSelect "a1" "i1"].countP
      (actionIdEq "a1")) ∧
    (∃ r ∈ (processBatchActions sampleLUser sampleUuid 5 sampleDM
        [sampleSelect "a1" "iMISSING", sampleSelect "a1" "i1"]).1.failed,
       r.clientActionId = "a1" ∧ r.reason = dupReason) ∧
    (processBatchActions sampleLUser sampleUuid 5 sampleDM
        [sampleSelect "a1" "iMISSING", sampleSelect "a1" "i1"]).1.failed =
      [⟨"a1", "Failed to process select action"⟩, ⟨"a1", dupReason⟩] ∧
    (processBatchActions sampleLUser sampleUuid 5 sampleDM
        [sampleSelect "a1" "iMISSING", sampleSelect "a1" "i1"]).1.accepted = [] :=
  ⟨by decide,
   (claim10_seen_before_dispatch sampleLUser sampleUuid 5 sampleDM
     [sampleSelect "a1" "iMISSING", sampleSelect "a1" "i1"] "a1").1 (by decide),
   by decide, by decide⟩

/-! C8 lemmas: the comparator functions are transitive and total, so
`mergeSort` yields pairwise-ordered output. -/

theorem catLe_trans (a b c : SCategory) :
    catLe a b = true → catLe b c = true → catLe a c = true := by
  simp only [catLe, decide_eq_true_eq]
  intro h1 h2
  rcases h1 with h1 | ⟨h1e, h1c⟩ <;> rcases h2 with h2 | ⟨h2e, h2c⟩
  · exact Or.inl (h1.trans h2)
  · exact Or.inl (h2e ▸ h1)
  · exact Or.inl (h1e ▸ h2)
  · exact Or.inr ⟨h1e.trans h2e, h1c.trans h2c⟩

theorem catLe_total (a b : SCategory) : (catLe a b || catLe b a) = true := by
  simp only [catLe, Bool.or_eq_true, decide_eq_true_eq]
  omega

theorem imgLe_trans (a b c : SImage) :
    imgLe a b = true → imgLe b c = true → imgLe a c = true := by
  simp only [imgLe, decide_eq_true_eq]
  omega

theorem imgLe_total (a b : SImage) : (imgLe a b || imgLe b a) = true := by
  simp only [imgLe, Bool.or_eq_true, decide_eq_true_eq]
  omega

/-- C8 counterexample: in a project with two images uploaded at ticks 1 and
2, `_project_detail` returns them oldest first — not sorted by upload time
in descending order, as the claim states.  (Python `sorted(...,
key=lambda img: img.uploaded_at or img.created_at)` with no `reverse=True`
sorts ascending.) -/
theorem claim8_counterexample :
    ¬ (projectDetail sampleWorld2.db "p1").images.Pairwise
        (fun a b => b.uploaded_at ≤ a.uploaded_at) := by
  intro h
  have asc := @List.sorted_mergeSort _ imgLe imgLe_trans imgLe_total
    (projectImages sampleWorld2.db "p1")
  have perm := List.mergeSort_perm (projectImages sampleWorld2.db "p1") imgLe
  have hsrc : projectImages sampleWorld2.db "p1" =
      [sampleImage "i1" 1, sampleImage "i2" 2] := by decide
  have hlen : ((projectImages sampleWorld2.db "p1").mergeSort imgLe).length = 2 := by
    rw [perm.length_eq, hsrc]; rfl
  obtain ⟨a, b, hab⟩ := List.length_eq_two.mp hlen
  have hdetail : (projectDetail sampleWorld2.db "p1").images =
      (projectImages sampleWorld2.db "p1").mergeSort imgLe := rfl
  rw [hdetail, hab] at h
  rw [hab] at asc perm
  have h1 : b.uploaded_at ≤ a.uploaded_at := by
    simpa using (List.pairwise_cons.mp h).1 b (List.mem_singleton_self b)
  have h2 : imgLe a b = true := by
    simpa using (List.pairwise_cons.mp asc).1 b (List.mem_singleton_self b)
  have heq : a.uploaded_at = b.uploaded_at := by
    simp only [imgLe, decide_eq_true_eq] at h2
    omega
  have hperm2 := (perm.map (fun i => i.uploaded_at))
  rw [hsrc] at hperm2
  have m1 : (1 : Nat) ∈ [a.uploaded_at, b.uploaded_at] := by
    apply hperm2.mem_iff.mpr
    simp [sampleImage]
  have m2 : (2 : Nat) ∈ [a.uploaded_at, b.uploaded_at] := by
    apply hperm2.mem_iff.mpr
    simp [sampleImage]
  simp only [List.mem_cons, List.mem_singleton, List.not_mem_nil, or_false] at m1 m2
  omega

/-- C8 (amended).  The project-detail projection returns categories sorted
by `order_index` with ties broken by creation time, and images sorted by
upload time in ASCENDING order (oldest first); both lists are permutations
of the project's live rows.  (The separate image-listing endpoint
`list_project_images` orders descending; the detail projection does not.) -/
theorem claim8_project_detail_sorted :
    ∀ (db : DB) (pid : String),
      (projectDetail db pid).categories.Pairwise (fun a b => catLe a b = true) ∧
      (projectDetail db pid).images.Pairwise (fun a b => imgLe a b = true) ∧
      (projectDetail db pid).categories.Perm (projectCategories db pid) ∧
      (projectDetail db pid).images.Perm (projectImages db pid) := by
  intro db pid
  refine ⟨?_, ?_, ?_, ?_⟩
  · exact List.sorted_mergeSort catLe_trans catLe_total (projectCategories db pid)
  · exact List.sorted_mergeSort imgLe_trans imgLe_total (projectImages db pid)
  · exact List.mergeSort_perm (projectCategories db pid) catLe
  · exact List.mergeSort_perm (projectImages db pid) imgLe

/-! Storage lemmas. -/

theorem store_read_erase_self (s : Store) (k : FileKey) :
    (s.erase k).read k = none := by
  have hfind : ((s.files.filter (fun e => ¬ e.1 = k)).find? (fun e => e.1 = k))
      = none := by
    rw [List.find?_eq_none]
    intro x hx
    have hpred := (List.mem_filter.mp hx).2
    simp only [decide_not, Bool.not_eq_eq_eq_not, Bool.not_true,
      decide_eq_false_iff_not] at hpred
    simp [hpred]
  simp [Store.read, Store.erase, hfind]

/-- C7.  Streaming a body with zero content bytes to an existing
project/category destination fails and leaves no file behind — but the error
kind is `writeError`, not `emptyUpload`: the handler's own
`HTTPException(400, "Uploaded file is empty")` is raised inside the `try`
block and re-wrapped by the blanket `except Exception` into
`HTTPException(500, "Failed to write file: ...")`.  This theorem documents
the divergence the claim trips over (the cleanup half of the claim holds). -/
theorem claim7_empty_stream_write_error :
    ∀ (w : World) (pid cid fname : String) (proj : SProject) (cat : SCategory)
      (chunks : List (List Nat)),
      w.db.projects.find? (fun p => p.id = pid) = some proj →
      w.db.categories.find? (fun c => c.id = cid ∧ c.project_id = pid) = some cat →
      chunks.flatten = [] →
      uploadFileStream w pid cid fname chunks =
        .err { w with store := ((w.store.write (destKey pid cid fname) []).erase
                 (destKey pid cid fname)) } .writeError ∧
      (((w.store.write (destKey pid cid fname) []).erase
          (destKey pid cid fname)).read (destKey pid cid fname) = none) := by
  intro w pid cid fname proj cat chunks hp hc hf
  constructor
  · simp only [uploadFileStream, hp, hc, hf, List.length_nil]
    rfl
  · exact store_read_erase_self _ _

/-- C7 witness: the empty body streamed to the sample project/category. -/
theorem claim7_witness :
    (sampleWorld.db.projects.find? (fun p => p.id = "p1") = some sampleProject ∧
     sampleWorld.db.categories.find?
       (fun c => c.id = "cat1" ∧ c.project_id = "p1") = some sampleCategory ∧
     ([] : List (List Nat)).flatten = []) ∧
    (uploadFileStream sampleWorld "p1" "cat1" "wedding2.jpg" [] =
      .err { sampleWorld with
              store := ((sampleWorld.store.write (destKey "p1" "cat1" "wedding2.jpg") []).erase
                (destKey "p1" "cat1" "wedding2.jpg")) } .writeError ∧
     ((sampleWorld.store.write (destKey "p1" "cat1" "wedding2.jpg") []).erase
        (destKey "p1" "cat1" "wedding2.jpg")).read
        (destKey "p1" "cat1" "wedding2.jpg") = none) :=
  ⟨⟨by decide, by decide, rfl⟩,
   claim7_empty_stream_write_error sampleWorld "p1" "cat1" "wedding2.jpg"
     sampleProject sampleCategory [] (by decide) (by decide) rfl⟩

/-! C3 lemmas: a `.jpg` without the JPEG magic always fails validation. -/

theorem isImageFile_of_jpg (name : String)
    (hext : lowerStr (pathSuffix name) = ".jpg") : isImageFile name = true := by
  unfold isImageFile
  rw [hext]
  decide

theorem validateImageFile_bad_jpg (name : String) (bytes : List Nat)
    (hext : lowerStr (pathSuffix name) = ".jpg")
    (hmag : bytes.take 3 ≠ [0xFF, 0xD8, 0xFF]) :
    validateImageFile name bytes = false := by
  unfold validateImageFile
  by_cases hlen : bytes.length < 100
  · rw [if_pos hlen]
  · rw [if_neg hlen]
    simp only [hext]
    have hmag20 : List.take 3 (List.take 20 bytes) ≠ [0xFF, 0xD8, 0xFF] := by
      rw [List.take_take]
      norm_num
      exact hmag
    rw [if_pos (Or.inl trivial), if_pos hmag20]

/-- C3.  Completing an upload whose stored file is named `*.jpg` but whose
first three bytes are not `FF D8 FF` fails with `CorruptImage`; the database
(hence every Image/Version row and every counter) is untouched, and the file
is removed from storage. -/
theorem claim3_corrupt_jpg_rejected :
    ∀ (w : World) (user : SUser) (pl : CompletePayload) (proj : SProject)
      (resolved : String) (bytes : List Nat) (iid vid : String)
      (wh : Option Nat × Option Nat) (now : Nat),
      user.role ≠ "client" →
      w.db.projects.find? (fun p => p.id = pl.project_id) = some proj →
      effectiveCategory (projectCategories w.db proj.id) pl.category_id =
        .ok (some resolved) →
      w.store.read (destKey proj.id resolved pl.file_name) = some bytes →
      lowerStr (pathSuffix (sanitizeSegment pl.file_name)) = ".jpg" →
      bytes.take 3 ≠ [0xFF, 0xD8, 0xFF] →
      completeUpload w user pl iid vid wh now =
        .err { w with store := w.store.erase (destKey proj.id resolved pl.file_name) }
          .corruptImage ∧
      (w.store.erase (destKey proj.id resolved pl.file_name)).read
        (destKey proj.id resolved pl.file_name) = none := by
  intro w user pl proj resolved bytes iid vid wh now hrole hproj heff hread hext hmag
  refine ⟨?_, store_read_erase_self _ _⟩
  have himg : isImageFile (destKey proj.id resolved pl.file_name).file = true :=
    isImageFile_of_jpg _ hext
  have hval : validateImageFile (destKey proj.id resolved pl.file_name).file bytes
      = false := validateImageFile_bad_jpg _ _ hext hmag
  simp only [completeUpload, if_neg hrole, hproj, heff, hread]
  rw [if_pos]
  exact ⟨himg, by simp [hval]⟩

/-- C3 witness: `photo.jpg` stored as 100 zero bytes in the sample world. -/
theorem claim3_witness :
    (sampleUser.role ≠ "client" ∧
     sampleWorldBad.db.projects.find? (fun p => p.id = "p1") = some sampleProject ∧
     effectiveCategory (projectCategories sampleWorldBad.db "p1") none =
       .ok (some "cat1") ∧
     sampleWorldBad.store.read (destKey "p1" "cat1" "photo.jpg") = some badJpegBytes ∧
     lowerStr (pathSuffix (sanitizeSegment "photo.jpg")) = ".jpg" ∧
     badJpegBytes.take 3 ≠ [0xFF, 0xD8, 0xFF]) ∧
    (completeUpload sampleWorldBad sampleUser samplePayloadBad "img-new" "ver-new"
        (none, none) 9 =
      .err { sampleWorldBad with
              store := sampleWorldBad.store.erase (destKey "p1" "cat1" "photo.jpg") }
        .corruptImage ∧
     (sampleWorldBad.store.erase (destKey "p1" "cat1" "photo.jpg")).read
        (destKey "p1" "cat1" "photo.jpg") = none) :=
  ⟨⟨by decide, by decide, by decide, by decide, by decide, by decide⟩,
   claim3_corrupt_jpg_rejected sampleWorldBad sampleUser samplePayloadBad
     sampleProject "cat1" badJpegBytes "img-new" "ver-new" (none, none) 9
     (by decide) (by decide) (by decide) (by decide) (by decide) (by decide)⟩

/-! C1 lemmas: mapping structure-preserving row updates over the store does
not change lookups, category resolution, or duplicate detection. -/

theorem find?_map_eq {α : Type} (l : List α) (g : α → α) (p : α → Bool)
    (hp : ∀ a, p (g a) = p a) : (l.map g).find? p = (l.find? p).map g := by
  rw [List.find?_map]
  have h : (p ∘ g) = p := funext hp
  rw [h]

theorem filter_map_eq {α : Type} (l : List α) (g : α → α) (p : α → Bool)
    (hp : ∀ a, p (g a) = p a) : (l.map g).filter p = (l.filter p).map g := by
  rw [List.filter_map]
  have h : (p ∘ g) = p := funext hp
  rw [h]

theorem any_map_eq {α : Type} (l : List α) (g : α → α) (p : α → Bool)
    (hp : ∀ a, p (g a) = p a) : (l.map g).any p = l.any p := by
  rw [List.any_map]
  have h : (p ∘ g) = p := funext hp
  rw [h]

/-- Category resolution only reads `id` and `is_default`, so it is unchanged
by a map that preserves them. -/
theorem resolveCategoryId_map (cats : List SCategory) (g : SCategory → SCategory)
    (req : Option String) (hid : ∀ c, (g c).id = c.id)
    (hdef : ∀ c, (g c).is_default = c.is_default) :
    resolveCategoryId (cats.map g) req = resolveCategoryId cats req := by
  unfold resolveCategoryId
  split
  · next r heq =>
    have hany : (cats.map g).any (fun c => c.id = r) = cats.any (fun c => c.id = r) :=
      any_map_eq cats g _ (fun c => by simp [hid c])
    rw [hany]
  · have hfind : (cats.map g).find? (fun c => c.is_default)
        = (cats.find? (fun c => c.is_default)).map g :=
      find?_map_eq cats g _ (fun c => by simp [hdef c])
    rw [hfind]
    cases cats.find? (fun c => c.is_default) with
    | some c => simp [hid c]
    | none =>
      simp only [Option.map_none']
      rw [List.head?_map]
      cases cats.head? with
      | some c => simp [hid c]
      | none => rfl

theorem effectiveCategory_map (cats : List SCategory) (g : SCategory → SCategory)
    (req : Option String) (hid : ∀ c, (g c).id = c.id)
    (hdef : ∀ c, (g c).is_default = c.is_default) :
    effectiveCategory (cats.map g) req = effectiveCategory cats req := by
  unfold effectiveCategory
  rw [resolveCategoryId_map cats g req hid hdef]
  split
  · rfl
  · split
    · rfl
    · rw [List.head?_map]
      cases cats.head? with
      | some c => simp [hid c]
      | none => rfl

theorem bumpProject_id (pid : String) (size now : Nat) (p : SProject) :
    (bumpProject pid size now p).id = p.id := by
  unfold bumpProject
  split <;> rfl

theorem bumpCategory_id (pid rc : String) (now : Nat) (c : SCategory) :
    (bumpCategory pid rc now c).id = c.id := by
  unfold bumpCategory
  split <;> rfl

theorem bumpCategory_project_id (pid rc : String) (now : Nat) (c : SCategory) :
    (bumpCategory pid rc now c).project_id = c.project_id := by
  unfold bumpCategory
  split <;> rfl

theorem bumpCategory_is_default (pid rc : String) (now : Nat) (c : SCategory) :
    (bumpCategory pid rc now c).is_default = c.is_default := by
  unfold bumpCategory
  split <;> rfl

/-- The duplicate short-circuit of `complete_upload`: when an Image already
matches (project, original file name, resolved category), the call returns
that Image with `already_exists = true` and the world — database rows,
counters and storage — is exactly the input world. -/
theorem completeUpload_duplicate_hit
    (w : World) (user : SUser) (pl : CompletePayload) (iid vid : String)
    (wh : Option Nat × Option Nat) (now : Nat) (proj : SProject)
    (resolved : String) (bytes : List Nat) (d : SImage)
    (hrole : ¬ user.role = "client")
    (hproj : w.db.projects.find? (fun p => p.id = pl.project_id) = some proj)
    (heff : effectiveCategory (projectCategories w.db proj.id) pl.category_id =
      .ok (some resolved))
    (hread : w.store.read (destKey proj.id resolved pl.file_name) = some bytes)
    (hval : isImageFile (destKey proj.id resolved pl.file_name).file = true →
      validateImageFile (destKey proj.id resolved pl.file_name).file bytes = true)
    (hdup : w.db.images.find? (dupPred proj.id pl resolved) = some d) :
    completeUpload w user pl iid vid wh now = .ok w d true := by
  have hnc : ¬ (isImageFile (destKey proj.id resolved pl.file_name).file ∧
      ¬ validateImageFile (destKey proj.id resolved pl.file_name).file bytes) := by
    rintro ⟨hi, hnv⟩
    exact hnv (hval hi)
  simp only [completeUpload, if_neg hrole, hproj, heff, hread, if_neg hnc, hdup]

/-- Inversion of a successful `complete_upload`: the call reached the
duplicate query, and either hit a duplicate (state unchanged) or inserted
the new Image and Version and bumped the counters. -/
theorem completeUpload_ok_inversion
    (w : World) (user : SUser) (pl : CompletePayload) (iid vid : String)
    (wh : Option Nat × Option Nat) (now : Nat) (w' : World) (img : SImage)
    (alr : Bool)
    (h : completeUpload w user pl iid vid wh now = .ok w' img alr) :
    ∃ proj resolved bytes,
      ¬ user.role = "client" ∧
      w.db.projects.find? (fun p => p.id = pl.project_id) = some proj ∧
      effectiveCategory (projectCategories w.db proj.id) pl.category_id =
        .ok (some resolved) ∧
      w.store.read (destKey proj.id resolved pl.file_name) = some bytes ∧
      ¬ (isImageFile (destKey proj.id resolved pl.file_name).file ∧
         ¬ validateImageFile (destKey proj.id resolved pl.file_name).file bytes) ∧
      ((w.db.images.find? (dupPred proj.id pl resolved) = some img ∧
        alr = true ∧ w' = w) ∨
       (w.db.images.find? (dupPred proj.id pl resolved) = none ∧ alr = false ∧
        img = newImageRow iid proj.id resolved user pl
          (assetUrl (destKey proj.id resolved pl.file_name)) bytes.length
          (mimeFor pl (destKey proj.id resolved pl.file_name).file) wh now ∧
        w' = insertImageWorld w proj.id resolved img
          (newVersionRow vid iid user
            (assetUrl (destKey proj.id resolved pl.file_name)) bytes.length wh now)
          bytes.length now)) := by
  unfold completeUpload at h
  split at h
  · simp at h
  rename_i hrole
  split at h
  · simp at h
  rename_i proj hproj
  split at h
  · simp at h
  · simp at h
  rename_i resolved heff
  split at h
  · simp at h
  rename_i bytes hread
  split at h
  · simp at h
  rename_i hnc
  split at h
  · rename_i d hdup
    simp only [CompleteResult.ok.injEq] at h
    exact ⟨proj, resolved, bytes, hrole, hproj, heff, hread, hnc,
      Or.inl ⟨h.2.1 ▸ hdup, h.2.2.symm, h.1.symm⟩⟩
  · rename_i hdup
    simp only [CompleteResult.ok.injEq] at h
    exact ⟨proj, resolved, bytes, hrole, hproj, heff, hread, hnc,
      Or.inr ⟨hdup, h.2.2.symm, h.2.1.symm, h.2.1 ▸ h.1.symm⟩⟩

/-- C1.  Complete is idempotent on (project, resolved category, original
file name).  First conjunct: whenever an Image already exists for that
triple (and the call reaches the duplicate query: the project exists, the
category resolves, the streamed file is present and valid), Complete
returns that existing Image with `already_exists = true` and changes
nothing — no second Image row, and the Project's `total_images` and
`storage_used_bytes` and the Category's `image_count` are untouched.
Second conjunct: from a state with no such Image, a successful Complete
followed by a second Complete with the same arguments yields
`already_exists = false` then `already_exists = true`, the second call
returns the Image created by the first and leaves the world of the first
call unchanged, with exactly one Image row created in total. -/
theorem claim1_complete_idempotent :
    (∀ (w : World) (user : SUser) (pl : CompletePayload) (iid vid : String)
       (wh : Option Nat × Option Nat) (now : Nat) (proj : SProject)
       (resolved : String) (bytes : List Nat) (d : SImage),
       ¬ user.role = "client" →
       w.db.projects.find? (fun p => p.id = pl.project_id) = some proj →
       effectiveCategory (projectCategories w.db proj.id) pl.category_id =
         .ok (some resolved) →
       w.store.read (destKey proj.id resolved pl.file_name) = some bytes →
       (isImageFile (destKey proj.id resolved pl.file_name).file = true →
         validateImageFile (destKey proj.id resolved pl.file_name).file bytes = true) →
       w.db.images.find? (dupPred proj.id pl resolved) = some d →
       completeUpload w user pl iid vid wh now = .ok w d true) ∧
    (∀ (w : World) (user : SUser) (pl : CompletePayload) (i1 v1 i2 v2 : String)
       (wh wh2 : Option Nat × Option Nat) (now now2 : Nat) (w1 : World)
       (img1 : SImage),
       completeUpload w user pl i1 v1 wh now = .ok w1 img1 false →
       completeUpload w1 user pl i2 v2 wh2 now2 = .ok w1 img1 true ∧
       w1.db.images.length = w.db.images.length + 1) := by
  constructor
  · intro w user pl iid vid wh now proj resolved bytes d hrole hproj heff hread hval hdup
    exact completeUpload_duplicate_hit w user pl iid vid wh now proj resolved bytes d
      hrole hproj heff hread hval hdup
  · intro w user pl i1 v1 i2 v2 wh wh2 now now2 w1 img1 h1
    obtain ⟨proj, resolved, bytes, hrole, hproj, heff, hread, hnc, hbranch⟩ :=
      completeUpload_ok_inversion w user pl i1 v1 wh now w1 img1 false h1
    rcases hbranch with ⟨_, habs, _⟩ | ⟨hdupnone, _, himg, hw1⟩
    · exact absurd habs (by simp)
    constructor
    · -- the second call finds the image the first call inserted
      have hpid : proj.id = pl.project_id := by
        have := List.find?_some hproj
        simpa using this
      have hprojid : (bumpProject proj.id bytes.length now proj).id = proj.id :=
        bumpProject_id ..
      have hproj2 : w1.db.projects.find? (fun p => p.id = pl.project_id)
          = some (bumpProject proj.id bytes.length now proj) := by
        rw [hw1]
        show (w.db.projects.map (bumpProject proj.id bytes.length now)).find?
          (fun p => p.id = pl.project_id) = _
        rw [find?_map_eq _ _ _ (fun p => by simp [bumpProject_id]), hproj]
        rfl
      have hcats : projectCategories w1.db proj.id
          = (projectCategories w.db proj.id).map (bumpCategory proj.id resolved now) := by
        rw [hw1]
        show (w.db.categories.map (bumpCategory proj.id resolved now)).filter
          (fun c => c.project_id = proj.id) = _
        exact filter_map_eq _ _ _ (fun c => by simp [bumpCategory_project_id])
      have heff2 : effectiveCategory (projectCategories w1.db
            (bumpProject proj.id bytes.length now proj).id) pl.category_id
          = .ok (some resolved) := by
        rw [hprojid, hcats,
          effectiveCategory_map _ _ _ (fun c => bumpCategory_id ..)
            (fun c => bumpCategory_is_default ..), heff]
      have hstore : w1.store = w.store := by rw [hw1]; rfl
      have hread2 : w1.store.read (destKey
            (bumpProject proj.id bytes.length now proj).id resolved pl.file_name)
          = some bytes := by
        rw [hstore, hprojid]
        exact hread
      have hval2 : isImageFile (destKey (bumpProject proj.id bytes.length now proj).id
            resolved pl.file_name).file = true →
          validateImageFile (destKey (bumpProject proj.id bytes.length now proj).id
            resolved pl.file_name).file bytes = true := by
        rw [hprojid]
        intro hi
        by_contra hb
        exact hnc ⟨hi, fun hv => hb hv⟩
      have hdup2 : w1.db.images.find? (dupPred
            (bumpProject proj.id bytes.length now proj).id pl resolved) = some img1 := by
        rw [hprojid, hw1]
        show (w.db.images ++ [img1]).find? (dupPred proj.id pl resolved) = some img1
        rw [List.find?_append, hdupnone]
        have : dupPred proj.id pl resolved img1 = true := by
          rw [himg]
          simp [dupPred, newImageRow]
        simp [List.find?, this]
      exact completeUpload_duplicate_hit w1 user pl i2 v2 wh2 now2
        (bumpProject proj.id bytes.length now proj) resolved bytes img1
        hrole hproj2 heff2 hread2 hval2 hdup2
    · rw [hw1]
      show (w.db.images ++ [img1]).length = w.db.images.length + 1
      simp

/-- C1 witness: completing `wedding.jpg` twice against the sample world:
`already_exists = false` then `already_exists = true`, one Image row. -/
theorem claim1_witness :
    ∃ w1 img1, completeUpload sampleWorld sampleUser samplePayload "img-1" "ver-1"
        (some 800, some 600) 5 = .ok w1 img1 false ∧
      completeUpload w1 sampleUser samplePayload "img-2" "ver-2"
        (some 800, some 600) 6 = .ok w1 img1 true ∧
      w1.db.images.length = sampleWorld.db.images.length + 1 := by
  have h1 : completeUpload sampleWorld sampleUser samplePayload "img-1" "ver-1"
      (some 800, some 600) 5 =
    .ok (insertImageWorld sampleWorld "p1" "cat1"
          (newImageRow "img-1" "p1" "cat1" sampleUser samplePayload
            (assetUrl (destKey "p1" "cat1" "wedding.jpg")) jpegBytes.length
            (mimeFor samplePayload (destKey "p1" "cat1" "wedding.jpg").file)
            (some 800, some 600) 5)
          (newVersionRow "ver-1" "img-1" sampleUser
            (assetUrl (destKey "p1" "cat1" "wedding.jpg")) jpegBytes.length
            (some 800, some 600) 5)
          jpegBytes.length 5)
        (newImageRow "img-1" "p1" "cat1" sampleUser samplePayload
          (assetUrl (destKey "p1" "cat1" "wedding.jpg")) jpegBytes.length
          (mimeFor samplePayload (destKey "p1" "cat1" "wedding.jpg").file)
          (some 800, some 600) 5)
        false := by decide
  obtain ⟨h2, h3⟩ := claim1_complete_idempotent.2 sampleWorld sampleUser samplePayload
    "img-1" "ver-1" "img-2" "ver-2" (some 800, some 600) (some 800, some 600)
    5 6 _ _ h1
  exact ⟨_, _, h1, h2, h3⟩

/-! C6 lemmas. -/

theorem countP_map_congr {α : Type} (l : List α) (f : α → α) (q : α → Bool)
    (h : ∀ a ∈ l, q (f a) = q a) : (l.map f).countP q = l.countP q := by
  rw [List.countP_map]
  exact List.countP_congr (fun a ha => by simp [h a ha])

theorem bumpFirstCommentCount_sum (iid : String) :
    ∀ (l l' : List LImage), bumpFirstCommentCount iid l = some l' →
      sumCommentCounts l' = sumCommentCounts l + 1 := by
  intro l
  induction l with
  | nil => intro l' h; simp [bumpFirstCommentCount] at h
  | cons img rest ih =>
    intro l' h
    unfold bumpFirstCommentCount at h
    split at h
    · rw [Option.some.injEq] at h
      rw [← h]
      simp [sumCommentCounts]
      omega
    · cases hb : bumpFirstCommentCount iid rest with
      | none => rw [hb] at h; simp at h
      | some rest' =>
        rw [hb] at h
        simp only [Option.map_some', Option.some.injEq] at h
        rw [← h]
        have hrec := ih rest' hb
        simp only [sumCommentCounts, List.map_cons, List.sum_cons] at hrec ⊢
        omega

/-- The first image with a given id, after the bump, keeps its id while its
`comment_count` rises by one; every other image is unchanged. -/
theorem bumpFirstCommentCount_shape (iid : String) :
    ∀ (l l' : List LImage), bumpFirstCommentCount iid l = some l' →
      ∃ pre i post, l = pre ++ i :: post ∧ i.id = iid ∧
        (∀ j ∈ pre, j.id ≠ iid) ∧
        l' = pre ++ { i with comment_count := i.comment_count + 1 } :: post := by
  intro l
  induction l with
  | nil => intro l' h; simp [bumpFirstCommentCount] at h
  | cons img rest ih =>
    intro l' h
    unfold bumpFirstCommentCount at h
    split at h
    · rename_i hid
      rw [Option.some.injEq] at h
      exact ⟨[], img, rest, by simp, hid, by simp, h.symm⟩
    · rename_i hid
      cases hb : bumpFirstCommentCount iid rest with
      | none => rw [hb] at h; simp at h
      | some rest' =>
        rw [hb] at h
        simp only [Option.map_some', Option.some.injEq] at h
        obtain ⟨pre, i, post, h1, h2, h3, h4⟩ := ih rest' hb
        refine ⟨img :: pre, i, post, by simp [h1], h2, ?_, by simp [← h, h4]⟩
        intro j hj
        rcases List.mem_cons.mp hj with hj | hj
        · rw [hj]; exact hid
        · exact h3 j hj

/-- C6 counterexample.  The batch `comment` action path goes through the
legacy `DataManager.create_comment`.  On a concrete store, the complete
post-state is: the comment row appended and the matching image's
`comment_count` raised from 0 to 1 — and nothing else.  The legacy
`Project` record (spelled out in full on the right-hand side) carries no
`total_comments` field at all, so the claim's assertion that the batch
comment path also "increments the owning Project's total_comments by
exactly 1" is false: no such stored counter exists or is updated. -/
theorem claim6_counterexample :
    dmCreateComment sampleDM sampleLComment =
      { projects := [{ sampleLProject with
          images := [{ sampleLImage "i1" with comment_count := 1 },
                     sampleLImage "i3"] }]
        comments := [sampleLComment] } := by
  decide

/-- C6 (amended).  Creating a comment through the SQL endpoint
`create_image_comment` inserts exactly one Comment row and increments both
the Image's `comment_count` and the owning Project's `total_comments` by
exactly 1, whatever the `parent_id`.  The batch `comment` action goes
through the legacy JSON store: it appends exactly one comment row and
increments only the Image's `comment_count` (the legacy Project record has
no `total_comments` field; the project-level total derived from image
counts therefore also rises by exactly 1). -/
theorem claim6_comment_counters :
    (∀ (w : World) (image_id : String) (req : CreateCommentRequest) (user : SUser)
       (cid : String) (now : Nat) (image : SImage) (proj : SProject),
       w.db.images.find? (fun i => i.id = image_id) = some image →
       w.db.projects.find? (fun p => p.id = image.project_id) = some proj →
       ∃ w' c, createImageComment w image_id req user cid now = .ok w' c ∧
         w'.db.comments = w.db.comments ++ [c] ∧
         c.parent_id = req.parent_id ∧ c.content = req.content ∧
         w'.db.images.find? (fun i => i.id = image_id) =
           some { image with comment_count := image.comment_count + 1
                             updated_at := now } ∧
         w'.db.projects.find? (fun p => p.id = image.project_id) =
           some { proj with total_comments := proj.total_comments + 1
                            updated_at := now }) ∧
    (∀ (s : DMState) (c : LComment) (proj : LProject) (imgs1 : List LImage),
       s.projects.find? (fun p => p.id = c.project_id) = some proj →
       bumpFirstCommentCount c.image_id proj.images = some imgs1 →
       dmCreateComment s c =
         { projects := replaceProject s.projects { proj with images := imgs1 }
           comments := s.comments ++ [c] } ∧
       sumCommentCounts imgs1 = sumCommentCounts proj.images + 1) := by
  constructor
  · intro w image_id req user cid now image proj himg hproj
    have hid : image.id = image_id := by simpa using List.find?_some himg
    simp only [createImageComment, himg]
    refine ⟨_, _, rfl, rfl, rfl, rfl, ?_, ?_⟩
    · show ((w.db.images.map (fun i =>
          if i.id = image.id then
            { i with comment_count := i.comment_count + 1, updated_at := now }
          else i)).find? (fun i => i.id = image_id)) = _
      rw [find?_map_eq _ _ _ (fun a => by
        by_cases ha : a.id = image.id <;> simp [ha])]
      rw [himg]
      simp [hid]
    · show ((w.db.projects.map (fun p =>
          if p.id = image.project_id then
            { p with total_comments := p.total_comments + 1, updated_at := now }
          else p)).find? (fun p => p.id = image.project_id)) = _
      rw [find?_map_eq _ _ _ (fun a => by
        by_cases ha : a.id = image.project_id <;> simp [ha])]
      rw [hproj]
      have hpid : proj.id = image.project_id := by simpa using List.find?_some hproj
      simp [hpid]
  · intro s c proj imgs1 hproj hbump
    refine ⟨?_, bumpFirstCommentCount_sum _ _ _ hbump⟩
    unfold dmCreateComment dmGetProject
    show (match s.projects.find? (fun p => p.id = c.project_id) with
          | none => { s with comments := s.comments ++ [c] }
          | some project => _) = _
    rw [hproj]
    simp only [hbump]

/-- C6 witness: the SQL endpoint on the two-image sample world, and the
batch path on the sample legacy store — both with a parent id set. -/
theorem claim6_witness :
    ((∃ w' c, createImageComment sampleWorld2 "i1" sampleCommentReq sampleUser
        "cm-new" 9 = .ok w' c ∧
      w'.db.comments = sampleWorld2.db.comments ++ [c] ∧
      c.parent_id = sampleCommentReq.parent_id ∧
      c.content = sampleCommentReq.content ∧
      w'.db.images.find? (fun i => i.id = "i1") =
        some { sampleImage "i1" 1 with comment_count := 1, updated_at := 9 } ∧
      w'.db.projects.find? (fun p => p.id = "p1") =
        some { { sampleProject with total_images := 2 } with
               total_comments := 1, updated_at := 9 }) ∧
     (dmCreateComment sampleDM sampleLComment =
        { projects := replaceProject sampleDM.projects
            { sampleLProject with
              images := [{ sampleLImage "i1" with comment_count := 1 },
                         sampleLImage "i3"] }
          comments := sampleDM.comments ++ [sampleLComment] } ∧
      sumCommentCounts [{ sampleLImage "i1" with comment_count := 1 },
                        sampleLImage "i3"] =
        sumCommentCounts sampleLProject.images + 1)) :=
  ⟨claim6_comment_counters.1 sampleWorld2 "i1" sampleCommentReq sampleUser
     "cm-new" 9 (sampleImage "i1" 1) { sampleProject with total_images := 2 }
     (by decide) (by decide),
   claim6_comment_counters.2 sampleDM sampleLComment sampleLProject
     [{ sampleLImage "i1" with comment_count := 1 }, sampleLImage "i3"]
     (by decide) (by decide)⟩

/-! C2 lemmas: each mutating operation preserves counter consistency. -/

theorem mem_of_head? {α : Type} (l : List α) (a : α) (h : l.head? = some a) :
    a ∈ l := by
  cases l with
  | nil => simp at h
  | cons x xs =>
    simp only [List.head?_cons, Option.some.injEq] at h
    rw [← h]
    exact List.mem_cons_self ..

/-- A category id produced by `_resolve_category_id` names a category of the
list (it is the validated request id, the default, or the head). -/
theorem resolveCategoryId_some_mem (cats : List SCategory) (req : Option String)
    (s : String) (h : resolveCategoryId cats req = .ok (some s)) :
    ∃ c ∈ cats, c.id = s := by
  unfold resolveCategoryId at h
  split at h
  · rename_i r heq
    split at h
    · rename_i hany
      simp only [Except.ok.injEq, Option.some.injEq] at h
      obtain ⟨c, hcmem, hc⟩ := List.any_eq_true.mp hany
      exact ⟨c, hcmem, by rw [← h]; simpa using hc⟩
    · simp at h
  · rename_i heq
    split at h
    · rename_i c hdef
      simp only [Except.ok.injEq, Option.some.injEq] at h
      exact ⟨c, List.mem_of_find?_eq_some hdef, h⟩
    · rename_i hdef
      cases hh : cats.head? with
      | none => rw [hh] at h; simp at h
      | some c0 =>
        rw [hh] at h
        simp only [Option.map_some', Except.ok.injEq, Option.some.injEq] at h
        exact ⟨c0, mem_of_head? cats c0 hh, h⟩

/-- A successfully resolved effective category id names a category of the
list. -/
theorem effectiveCategory_some_mem (cats : List SCategory) (req : Option String)
    (resolved : String)
    (h : effectiveCategory cats req = .ok (some resolved)) :
    ∃ c ∈ cats, c.id = resolved := by
  unfold effectiveCategory at h
  split at h
  · simp at h
  · rename_i catOpt hres
    split at h
    · rename_i c hst
      simp only [Except.ok.injEq, Option.some.injEq] at h
      have hco : catOpt = some c := by
        unfold strTruthy at hst
        cases catOpt with
        | none => simp at hst
        | some s =>
          by_cases hs : s = ""
          · simp [hs] at hst
          · simp only [hs, if_false, Option.some.injEq] at hst
            rw [hst]
      rw [← h]
      exact resolveCategoryId_some_mem cats req c (hco ▸ hres)
    · rename_i hst
      simp only [Except.ok.injEq] at h
      cases hh : cats.head? with
      | none => rw [hh] at h; simp at h
      | some c0 =>
        rw [hh] at h
        simp only [Option.map_some', Option.some.injEq] at h
        exact ⟨c0, mem_of_head? cats c0 hh, h⟩

theorem bumpProject_total_images (pid : String) (size now : Nat) (p : SProject) :
    (bumpProject pid size now p).total_images =
      if p.id = pid then p.total_images + 1 else p.total_images := by
  unfold bumpProject
  split <;> simp_all

theorem bumpProject_selected_images (pid : String) (size now : Nat) (p : SProject) :
    (bumpProject pid size now p).selected_images = p.selected_images := by
  unfold bumpProject
  split <;> rfl

theorem bumpProject_total_comments (pid : String) (size now : Nat) (p : SProject) :
    (bumpProject pid size now p).total_comments = p.total_comments := by
  unfold bumpProject
  split <;> rfl

theorem bumpCategory_image_count (pid rc : String) (now : Nat) (c : SCategory) :
    (bumpCategory pid rc now c).image_count =
      if c.project_id = pid ∧ c.id = rc then c.image_count + 1 else c.image_count := by
  unfold bumpCategory
  split <;> simp_all

/-- The transactional insert of `complete_upload` keeps every counter equal
to its live count: the new image raises exactly the live counts whose
counters get the blind `+1`. -/
theorem insertImageWorld_consistent
    (w : World) (pid resolved : String) (img : SImage) (ver : SVersion)
    (size now : Nat)
    (hwf : wfDB w.db) (hcons : countersConsistent w.db)
    (hfresh : img.id ∉ w.db.images.map (fun i => i.id))
    (hcat : ∃ c ∈ w.db.categories, c.project_id = pid ∧ c.id = resolved)
    (hip : img.project_id = pid) (hic : img.category_id = resolved)
    (his : img.is_selected = false) (hicc : img.comment_count = 0) :
    countersConsistent (insertImageWorld w pid resolved img ver size now).db := by
  obtain ⟨hc1, hc2, hc3, hc4, hc5⟩ := hcons
  obtain ⟨hwp, hwc, hwi, hwce, hwcm⟩ := hwf
  refine ⟨?_, ?_, ?_, ?_, ?_⟩
  · -- total_images
    intro p' hp'
    simp only [insertImageWorld] at hp' ⊢
    obtain ⟨p, hp, rfl⟩ := List.mem_map.mp hp'
    rw [bumpProject_total_images, bumpProject_id]
    unfold countImagesOfProject
    rw [List.countP_append]
    have hcnt := hc1 p hp
    unfold countImagesOfProject at hcnt
    have hsingle : List.countP (fun i => i.project_id = p.id) [img]
        = if p.id = pid then 1 else 0 := by
      by_cases hpp : p.id = pid <;> simp [List.countP_cons, hip, hpp, eq_comm]
    rw [hsingle]
    by_cases hpp : p.id = pid <;> simp [hpp, hcnt]
  · -- selected_images
    intro p' hp'
    simp only [insertImageWorld] at hp' ⊢
    obtain ⟨p, hp, rfl⟩ := List.mem_map.mp hp'
    rw [bumpProject_selected_images, bumpProject_id]
    unfold countSelectedOfProject
    rw [List.countP_append]
    have hcnt := hc2 p hp
    unfold countSelectedOfProject at hcnt
    have hsingle : List.countP (fun i => i.project_id = p.id ∧ i.is_selected) [img]
        = 0 := by
      simp [List.countP_cons, his]
    rw [hsingle, hcnt]
    omega
  · -- image_count per category
    intro c' hm
    simp only [insertImageWorld] at hm ⊢
    obtain ⟨c, hcm, rfl⟩ := List.mem_map.mp hm
    rw [bumpCategory_image_count, bumpCategory_id]
    unfold countImagesOfCategory
    rw [List.countP_append]
    have hcnt := hc3 c hcm
    unfold countImagesOfCategory at hcnt
    have hsingle : List.countP (fun i => i.category_id = c.id) [img]
        = if c.id = resolved then 1 else 0 := by
      by_cases hcr : c.id = resolved <;> simp [List.countP_cons, hic, hcr, eq_comm]
    rw [hsingle]
    by_cases hbc : c.project_id = pid ∧ c.id = resolved
    · simp [hbc, hbc.2, hcnt]
    · by_cases hcr : c.id = resolved
      · exfalso
        obtain ⟨c0, hc0m, hc0p, hc0id⟩ := hcat
        have hcc0 : c = c0 :=
          List.inj_on_of_nodup_map hwc hcm hc0m (by rw [hcr, hc0id])
        exact hbc ⟨hcc0 ▸ hc0p, hcr⟩
      · simp [hbc, hcr, hcnt]
  · -- comment_count per image
    intro i' hi'
    simp only [insertImageWorld] at hi' ⊢
    rcases List.mem_append.mp hi' with hold | hnew
    · exact hc4 i' hold
    · have hii : i' = img := by simpa using hnew
      rw [hii, hicc]
      unfold countCommentsOfImage
      symm
      rw [List.countP_eq_zero]
      intro cm hcm hcmid
      obtain ⟨i0, hi0, hi0id⟩ := hwcm cm hcm
      apply hfresh
      have : cm.image_id = img.id := by simpa using hcmid
      rw [← this, ← hi0id]
      exact List.mem_map_of_mem _ hi0
  · -- total_comments per project
    intro p' hp'
    simp only [insertImageWorld] at hp' ⊢
    obtain ⟨p, hp, rfl⟩ := List.mem_map.mp hp'
    rw [bumpProject_total_comments, bumpProject_id]
    have hcnt := hc5 p hp
    unfold countCommentsOfProject at hcnt ⊢
    simp only [insertImageWorld]
    rw [hcnt]
    apply List.countP_congr
    intro cm hcm
    have hfind : (w.db.images ++ [img]).find? (fun i => i.id = cm.image_id)
        = w.db.images.find? (fun i => i.id = cm.image_id) := by
      rw [List.find?_append]
      obtain ⟨i0, hi0, hi0id⟩ := hwcm cm hcm
      have hsome : (w.db.images.find? (fun i => i.id = cm.image_id)).isSome := by
        rw [List.find?_isSome]
        exact ⟨i0, hi0, by simp [hi0id]⟩
      obtain ⟨j, hj⟩ := Option.isSome_iff_exists.mp hsome
      rw [hj]
      rfl
    rw [hfind]

/-- C9 witness: concrete segments; the file name attempts a traversal. -/
theorem claim9_witness :
    (sanitizeSegment "p1" ≠ ".." ∧ sanitizeSegment "p1" ≠ "" ∧
     sanitizeSegment "cat1" ≠ ".." ∧ sanitizeSegment "cat1" ≠ "") ∧
    ('/' ∉ (sanitizeSegment "../../etc/passwd").data ∧
     destKey "p1" "cat1" "../../etc/passwd" =
       ⟨sanitizeSegment "p1", sanitizeSegment "cat1",
        sanitizeSegment "../../etc/passwd"⟩ ∧
     climbsAbove 0 [sanitizeSegment "p1", sanitizeSegment "cat1",
                    sanitizeSegment "../../etc/passwd"] = false) :=
  ⟨⟨by decide, by decide, by decide, by decide⟩,
   claim9_upload_path_single_segment_no_escape "p1" "cat1" "../../etc/passwd"
     (by decide) (by decide) (by decide) (by decide)⟩

theorem countP_updatedImages (images : List SImage) (image : SImage)
    (image_id : String) (img2 : SImage) (q : SImage → Bool)
    (hnd : (images.map (fun i => i.id)).Nodup) (hmem : image ∈ images)
    (hid : image.id = image_id) (hq : q img2 = q image) :
    (updatedImages images image_id img2).countP q = images.countP q := by
  unfold updatedImages
  apply countP_map_congr
  intro i hi
  by_cases hii : i.id = image_id
  · have hie : i = image := List.inj_on_of_nodup_map hnd hi hmem (by rw [hii, hid])
    show q (if i.id = image_id then img2 else i) = q i
    rw [if_pos hii, hq, hie]
  · show q (if i.id = image_id then img2 else i) = q i
    rw [if_neg hii]

theorem find?_updatedImages (images : List SImage) (image_id : String)
    (img2 : SImage) (k : String) (hid2 : img2.id = image_id) :
    (updatedImages images image_id img2).find? (fun i => i.id = k) =
      (images.find? (fun i => i.id = k)).map
        (fun i => if i.id = image_id then img2 else i) := by
  unfold updatedImages
  apply find?_map_eq
  intro a
  by_cases ha : a.id = image_id
  · show decide ((if a.id = image_id then img2 else a).id = k) = decide (a.id = k)
    rw [if_pos ha, hid2, ha]
  · show decide ((if a.id = image_id then img2 else a).id = k) = decide (a.id = k)
    rw [if_neg ha]

/-- The per-project comment count only reads image ids and project ids, so a
row-map preserving those (on the rows present) leaves it unchanged. -/
theorem countP_comments_find_map (comments : List SComment) (images : List SImage)
    (g : SImage → SImage) (pid : String)
    (hgid : ∀ i, (g i).id = i.id)
    (hgpj : ∀ i ∈ images, (g i).project_id = i.project_id) :
    comments.countP (fun cm =>
        ((images.map g).find? (fun i => i.id = cm.image_id)).any
          (fun i => i.project_id = pid)) =
      comments.countP (fun cm =>
        (images.find? (fun i => i.id = cm.image_id)).any
          (fun i => i.project_id = pid)) := by
  apply List.countP_congr
  intro cm hcm
  rw [find?_map_eq images g _ (fun a => by simp [hgid a])]
  cases hf : images.find? (fun i => i.id = cm.image_id) with
  | none => rfl
  | some i0 =>
    have hi0 : i0 ∈ images := List.mem_of_find?_eq_some hf
    simp only [Option.map_some', Option.any_some, hgpj i0 hi0]

/-- After `recomputeCategoryCount`, the target category holds the live count;
the others are untouched, so they stay consistent whenever they were. -/
theorem recompute_consistent (images1 : List SImage) (target : String)
    (cats : List SCategory)
    (hrest : ∀ c ∈ cats, ¬ c.id = target →
      c.image_count = countImagesOfCategory images1 c.id) :
    ∀ c' ∈ recomputeCategoryCount images1 target cats,
      c'.image_count = countImagesOfCategory images1 c'.id := by
  intro c' hc'
  unfold recomputeCategoryCount at hc'
  obtain ⟨c, hc, rfl⟩ := List.mem_map.mp hc'
  by_cases hct : c.id = target
  · simp only [if_pos hct]
  · simp only [if_neg hct]
    exact hrest c hc hct

/-- The recompute-and-commit tail of `update_project_image` keeps every
counter equal to its live count. -/
theorem updateWorld_consistent
    (w : World) (image : SImage) (image_id : String) (img2 : SImage)
    (prevCat newCat : String) (tags1 : List STag) (now : Nat)
    (hwf : wfDB w.db) (hcons : countersConsistent w.db)
    (hmem : image ∈ w.db.images) (hid : image.id = image_id)
    (h2id : img2.id = image.id) (h2p : img2.project_id = image.project_id)
    (h2cc : img2.comment_count = image.comment_count)
    (h2cat : img2.category_id = newCat)
    (hprev : prevCat = image.category_id)
    (hnew : newCat = image.category_id ∨ ∃ c ∈ w.db.categories, c.id = newCat) :
    countersConsistent
      (updateWorld w image image_id img2 prevCat newCat tags1 now).db := by
  obtain ⟨hc1, hc2, hc3, hc4, hc5⟩ := hcons
  obtain ⟨hwp, hwc, hwi, hwce, hwcm⟩ := hwf
  have hid2 : img2.id = image_id := by rw [h2id, hid]
  refine ⟨?_, ?_, ?_, ?_, ?_⟩
  · intro p' hp'
    simp only [updateWorld] at hp' ⊢
    obtain ⟨p, hp, rfl⟩ := List.mem_map.mp hp'
    by_cases hpp : p.id = image.project_id
    · simp only [if_pos hpp]
    · simp only [if_neg hpp]
      rw [hc1 p hp]
      exact (countP_updatedImages w.db.images image image_id img2 _ hwi hmem hid
        (by simp [h2p])).symm
  · intro p' hp'
    simp only [updateWorld] at hp' ⊢
    obtain ⟨p, hp, rfl⟩ := List.mem_map.mp hp'
    by_cases hpp : p.id = image.project_id
    · simp only [if_pos hpp]
    · simp only [if_neg hpp]
      rw [hc2 p hp]
      have hne : ¬ image.project_id = p.id := fun hcontra => hpp hcontra.symm
      exact (countP_updatedImages w.db.images image image_id img2 _ hwi hmem hid
        (by simp [h2p, hne])).symm
  · intro c' hc'
    simp only [updateWorld] at hc' ⊢
    have hcount : ∀ cid : String, ¬ cid = newCat → ¬ cid = prevCat →
        countImagesOfCategory (updatedImages w.db.images image_id img2) cid
          = countImagesOfCategory w.db.images cid := by
      intro cid hn hp
      have hn' : ¬ newCat = cid := fun hx => hn hx.symm
      have hp' : ¬ prevCat = cid := fun hx => hp hx.symm
      unfold countImagesOfCategory
      exact countP_updatedImages w.db.images image image_id img2 _ hwi hmem hid
        (by simp [h2cat, ← hprev, hn', hp'])
    have hsame : prevCat = newCat →
        ∀ cid : String,
        countImagesOfCategory (updatedImages w.db.images image_id img2) cid
          = countImagesOfCategory w.db.images cid := by
      intro hpn cid
      unfold countImagesOfCategory
      exact countP_updatedImages w.db.images image image_id img2 _ hwi hmem hid
        (by simp [h2cat, ← hprev, hpn])
    by_cases hnc : newCat ≠ ""
    · rw [if_pos hnc] at hc'
      by_cases hpc : prevCat ≠ "" ∧ prevCat ≠ newCat
      · rw [if_pos hpc] at hc'
        refine recompute_consistent _ _ _ ?_ c' hc'
        intro c hcm hcne
        unfold recomputeCategoryCount at hcm
        obtain ⟨c0, hc0, rfl⟩ := List.mem_map.mp hcm
        by_cases hcp : c0.id = prevCat
        · simp only [if_pos hcp]
        · simp only [if_neg hcp] at hcne ⊢
          rw [hc3 c0 hc0]
          exact (hcount c0.id hcne hcp).symm
      · rw [if_neg hpc] at hc'
        refine recompute_consistent _ _ _ ?_ c' hc'
        intro c hcm hcne
        rw [hc3 c hcm]
        rcases not_and_or.mp hpc with hp0 | hpn
        · have hp0' : prevCat = "" := not_not.mp hp0
          refine (hcount c.id hcne ?_).symm
          intro hcp
          exact hwce c hcm (hcp.trans hp0')
        · exact (hsame (not_not.mp hpn) c.id).symm
    · rw [if_neg hnc] at hc'
      have hnc' : newCat = "" := not_not.mp hnc
      by_cases hpc : prevCat ≠ "" ∧ prevCat ≠ newCat
      · rw [if_pos hpc] at hc'
        refine recompute_consistent _ _ _ ?_ c' hc'
        intro c hcm hcp
        rw [hc3 c hcm]
        refine (hcount c.id ?_ hcp).symm
        intro hcn
        exact hwce c hcm (hcn.trans hnc')
      · rw [if_neg hpc] at hc'
        rw [hc3 c' hc']
        rcases not_and_or.mp hpc with hp0 | hpn
        · have hp0' : prevCat = "" := not_not.mp hp0
          exact (hsame (hp0'.trans hnc'.symm) c'.id).symm
        · exact (hsame (not_not.mp hpn) c'.id).symm
  · intro i' hi'
    simp only [updateWorld] at hi' ⊢
    obtain ⟨i, hi, rfl⟩ := List.mem_map.mp hi'
    by_cases hii : i.id = image_id
    · simp only [if_pos hii]
      rw [h2cc, h2id]
      exact hc4 image hmem
    · simp only [if_neg hii]
      exact hc4 i hi
  · intro p' hp'
    simp only [updateWorld] at hp' ⊢
    obtain ⟨p, hp, rfl⟩ := List.mem_map.mp hp'
    have hgid : ∀ i : SImage,
        ((if i.id = image_id then img2 else i) : SImage).id = i.id := by
      intro i
      by_cases hii : i.id = image_id
      · rw [if_pos hii, hid2, hii]
      · rw [if_neg hii]
    have hgpj : ∀ i ∈ w.db.images,
        ((if i.id = image_id then img2 else i) : SImage).project_id
          = i.project_id := by
      intro i hi
      by_cases hii : i.id = image_id
      · have hie : i = image := List.inj_on_of_nodup_map hwi hi hmem (by rw [hii, hid])
        rw [if_pos hii, h2p, hie]
      · rw [if_neg hii]
    by_cases hpp : p.id = image.project_id
    · simp only [if_pos hpp]
      rw [hc5 p hp]
      exact (countP_comments_find_map w.db.comments w.db.images
        (fun i => if i.id = image_id then img2 else i) p.id hgid hgpj).symm
    · simp only [if_neg hpp]
      rw [hc5 p hp]
      exact (countP_comments_find_map w.db.comments w.db.images
        (fun i => if i.id = image_id then img2 else i) p.id hgid hgpj).symm

/-- Inversion of a successful `update_project_image`: the image exists, the
committed world is the recompute-and-commit tail on it, the returned row
differs from the stored one only in the PATCHed columns, and the previous /
new category ids obey the recategorize case split of the handler. -/
theorem updateProjectImage_ok_inversion
    (w : World) (image_id : String) (req : UpdateImageRequest) (user : SUser)
    (fresh : List String) (now : Nat) (w' : World) (img : SImage)
    (h : updateProjectImage w image_id req user fresh now = .ok w' img) :
    ∃ image prevCat newCat tags1,
      w.db.images.find? (fun i => i.id = image_id) = some image ∧
      w' = updateWorld w image image_id img prevCat newCat tags1 now ∧
      img.id = image.id ∧ img.project_id = image.project_id ∧
      img.comment_count = image.comment_count ∧ img.category_id = newCat ∧
      prevCat = image.category_id ∧
      (newCat = image.category_id ∨ ∃ c ∈ w.db.categories, c.id = newCat) := by
  simp only [updateProjectImage] at h
  split at h
  · simp at h
  rename_i image himg
  split at h
  · simp at h
  rename_i project hproj
  split at h
  · simp at h
  rename_i hrole
  split at h
  · simp at h
  rename_i prevCat newCat heq
  have hpn : prevCat = image.category_id ∧
      (newCat = image.category_id ∨ ∃ c ∈ w.db.categories, c.id = newCat) := by
    split at heq
    · rename_i c hst
      split at heq
      · simp at heq
      · rename_i cat hcat
        simp only [Option.some.injEq, Prod.mk.injEq] at heq
        exact ⟨heq.1.symm, Or.inr ⟨cat, List.mem_of_find?_eq_some hcat, heq.2⟩⟩
    · simp only [Option.some.injEq, Prod.mk.injEq] at heq
      exact ⟨heq.1.symm, Or.inl heq.2.symm⟩
  split at h
  all_goals
    simp only [UpdateResult.ok.injEq] at h
    obtain ⟨hw, himgeq⟩ := h
    subst himgeq
    subst hw
    exact ⟨image, prevCat, newCat, _, himg, rfl, rfl, rfl, rfl, rfl,
      hpn.1, hpn.2⟩

/-- `create_image_comment` keeps every counter equal to its live count: the
single inserted Comment row raises exactly the two live counts whose
counters get the `+1`. -/
theorem createImageComment_consistent
    (w : World) (image_id : String) (req : CreateCommentRequest) (user : SUser)
    (cid : String) (now : Nat) (w' : World) (c : SComment)
    (hcons : countersConsistent w.db)
    (h : createImageComment w image_id req user cid now = .ok w' c) :
    countersConsistent w'.db := by
  obtain ⟨hc1, hc2, hc3, hc4, hc5⟩ := hcons
  simp only [createImageComment] at h
  split at h
  · simp at h
  rename_i image himg
  simp only [CommentResult.ok.injEq] at h
  obtain ⟨hw, hcomm⟩ := h
  subst hw
  have hidq : image.id = image_id := by simpa using List.find?_some himg
  have himg2 : w.db.images.find? (fun i => i.id = image.id) = some image := by
    rw [hidq]
    exact himg
  refine ⟨?_, ?_, ?_, ?_, ?_⟩
  · intro p' hp'
    obtain ⟨p, hp, rfl⟩ := List.mem_map.mp hp'
    by_cases hpp : p.id = image.project_id
    · simp only [if_pos hpp]
      rw [hc1 p hp]
      exact (countP_map_congr w.db.images _ _ (fun i _ => by
        by_cases hii : i.id = image.id
        · rw [if_pos hii]
        · rw [if_neg hii])).symm
    · simp only [if_neg hpp]
      rw [hc1 p hp]
      exact (countP_map_congr w.db.images _ _ (fun i _ => by
        by_cases hii : i.id = image.id
        · rw [if_pos hii]
        · rw [if_neg hii])).symm
  · intro p' hp'
    obtain ⟨p, hp, rfl⟩ := List.mem_map.mp hp'
    by_cases hpp : p.id = image.project_id
    · simp only [if_pos hpp]
      rw [hc2 p hp]
      exact (countP_map_congr w.db.images _ _ (fun i _ => by
        by_cases hii : i.id = image.id
        · rw [if_pos hii]
        · rw [if_neg hii])).symm
    · simp only [if_neg hpp]
      rw [hc2 p hp]
      exact (countP_map_congr w.db.images _ _ (fun i _ => by
        by_cases hii : i.id = image.id
        · rw [if_pos hii]
        · rw [if_neg hii])).symm
  · intro c' hc'
    rw [hc3 c' hc']
    exact (countP_map_congr w.db.images _ _ (fun i _ => by
      by_cases hii : i.id = image.id
      · rw [if_pos hii]
      · rw [if_neg hii])).symm
  · intro i' hi'
    obtain ⟨i, hi, rfl⟩ := List.mem_map.mp hi'
    by_cases hii : i.id = image.id
    · simp only [if_pos hii]
      unfold countCommentsOfImage
      rw [List.countP_append]
      have h1 := hc4 i hi
      unfold countCommentsOfImage at h1
      rw [h1]
      simp [List.countP_cons, hii]
    · simp only [if_neg hii]
      unfold countCommentsOfImage
      rw [List.countP_append]
      have h1 := hc4 i hi
      unfold countCommentsOfImage at h1
      rw [h1]
      have hne : ¬ image.id = i.id := fun hx => hii hx.symm
      simp [List.countP_cons, hne]
  · intro p' hp'
    obtain ⟨p, hp, rfl⟩ := List.mem_map.mp hp'
    have hmain :
        w.db.comments.countP (fun cm =>
          ((w.db.images.map (fun i =>
              if i.id = image.id then
                { i with comment_count := i.comment_count + 1, updated_at := now }
              else i)).find? (fun i => i.id = cm.image_id)).any
            (fun i => i.project_id = p.id))
          = countCommentsOfProject w.db p.id :=
      countP_comments_find_map w.db.comments w.db.images _ p.id
        (fun i => by
          by_cases hii : i.id = image.id
          · rw [if_pos hii]
          · rw [if_neg hii])
        (fun i _ => by
          by_cases hii : i.id = image.id
          · rw [if_pos hii]
          · rw [if_neg hii])
    have hfind : (w.db.images.map (fun i =>
          if i.id = image.id then
            { i with comment_count := i.comment_count + 1, updated_at := now }
          else i)).find? (fun i => i.id = image.id)
        = some { image with comment_count := image.comment_count + 1
                            updated_at := now } := by
      rw [find?_map_eq w.db.images _ _ (fun a => by
        by_cases ha : a.id = image.id
        · rw [if_pos ha]
        · rw [if_neg ha])]
      rw [himg2]
      simp
    by_cases hpp : p.id = image.project_id
    · simp only [if_pos hpp]
      simp only [countCommentsOfProject]
      rw [List.countP_append, hmain, ← hc5 p hp]
      simp only [List.countP_cons, List.countP_nil]
      rw [hfind]
      have hpe : image.project_id = p.id := hpp.symm
      simp [hpe]
    · simp only [if_neg hpp]
      simp only [countCommentsOfProject]
      rw [List.countP_append, hmain, ← hc5 p hp]
      simp only [List.countP_cons, List.countP_nil]
      rw [hfind]
      have hpe : ¬ image.project_id = p.id := fun hx => hpp hx.symm
      simp [hpe]

/-- C2.  Counter consistency is an invariant of the mutating operations:
whenever every Project's `total_images`/`selected_images`/`total_comments`,
every Category's `image_count` and every Image's `comment_count` equal the
live counts over their source rows and the database is structurally
well-formed, then after a successful upload completion (`complete_upload`,
with a fresh uuid for the new Image row), after a successful image
update/recategorize (`update_project_image`), and after a successful comment
creation (`create_image_comment`), every counter again equals its live
count — the denormalized counters are never stale at the transaction
boundary. -/
theorem claim2_counters_match_live_counts :
    (∀ (w : World) (user : SUser) (pl : CompletePayload) (iid vid : String)
       (wh : Option Nat × Option Nat) (now : Nat) (w' : World) (img : SImage)
       (alr : Bool),
       wfDB w.db → countersConsistent w.db →
       iid ∉ w.db.images.map (fun i => i.id) →
       completeUpload w user pl iid vid wh now = .ok w' img alr →
       countersConsistent w'.db) ∧
    (∀ (w : World) (image_id : String) (req : UpdateImageRequest) (user : SUser)
       (fresh : List String) (now : Nat) (w' : World) (img : SImage),
       wfDB w.db → countersConsistent w.db →
       updateProjectImage w image_id req user fresh now = .ok w' img →
       countersConsistent w'.db) ∧
    (∀ (w : World) (image_id : String) (req : CreateCommentRequest)
       (user : SUser) (cid : String) (now : Nat) (w' : World) (c : SComment),
       countersConsistent w.db →
       createImageComment w image_id req user cid now = .ok w' c →
       countersConsistent w'.db) := by
  refine ⟨?_, ?_, ?_⟩
  · intro w user pl iid vid wh now w' img alr hwf hcons hfresh h
    obtain ⟨proj, resolved, bytes, hrole, hproj, heff, hread, hval, hcase⟩ :=
      completeUpload_ok_inversion w user pl iid vid wh now w' img alr h
    rcases hcase with ⟨hdup, halr, rfl⟩ | ⟨hdup, halr, himgeq, rfl⟩
    · exact hcons
    · subst himgeq
      refine insertImageWorld_consistent _ _ _ _ _ _ _ hwf hcons ?_ ?_ rfl rfl
        rfl rfl
      · exact hfresh
      · obtain ⟨cc, hcm, hcid⟩ := effectiveCategory_some_mem _ _ _ heff
        have h2 := List.mem_filter.mp hcm
        exact ⟨cc, h2.1, of_decide_eq_true h2.2, hcid⟩
  · intro w image_id req user fresh now w' img hwf hcons h
    obtain ⟨image, prevCat, newCat, tags1, himg, hw', hiid, hipj, hicc, hicat,
      hprev, hnew⟩ := updateProjectImage_ok_inversion w image_id req user fresh
        now w' img h
    subst hw'
    have hmem : image ∈ w.db.images := List.mem_of_find?_eq_some himg
    have hidq : image.id = image_id := by simpa using List.find?_some himg
    exact updateWorld_consistent w image image_id img prevCat newCat tags1 now
      hwf hcons hmem hidq hiid hipj hicc hicat hprev hnew
  · intro w image_id req user cid now w' c hcons h
    exact createImageComment_consistent w image_id req user cid now w' c hcons h

/-- C2 witness: the three operations applied to concrete consistent worlds —
a fresh upload into the sample world, a selection PATCH and a comment
creation on the two-image sample world — leave every counter equal to its
live count. -/
theorem claim2_witness :
    countersConsistent c2World1.db ∧ countersConsistent c2World2.db ∧
      countersConsistent c2World3.db :=
  ⟨claim2_counters_match_live_counts.1 sampleWorld sampleUser samplePayload
     "img-new" "ver-new" (none, none) 5 c2World1 c2NewImage false (by decide)
     (by decide) (by decide) (by decide),
   claim2_counters_match_live_counts.2.1 sampleWorld2 "i1" sampleUpdateReq
     sampleUser [] 9 c2World2 c2Image2 (by decide) (by decide) (by decide),
   claim2_counters_match_live_counts.2.2 sampleWorld2 "i1" sampleCommentReq
     sampleUser "cm-new" 9 c2World3 c2Comment (by decide) (by decide)⟩

end PhotoProof
